import Mathlib

/-!
Verification of the task subsystem of the `yo` CLI (`yo/tasks.py`).

The definitions below are a shallow embedding of the Python source:
pure fragments become Lean functions, raised Python exceptions become
`Except PyError` results, and Python dictionaries keyed by task name are
modelled as association lists whose keys are unique.  Machine-level
details that the claims do not touch (the SSH transport, the rich
console, the filesystem) are abstracted at the call boundary exactly
where the source hands off to them.
-/

set_option autoImplicit false

namespace Yo

/-- Python exception kinds raised by the embedded code paths: `YoExc` is
the user-facing error type of the program (`yo/util.py`); the other
constructors model built-in Python exceptions that escape uncaught. -/
inductive PyError where
  | yoExc : String → PyError
  | indexError : PyError
  | valueError : PyError
  | keyError : PyError
deriving DecidableEq

instance {α β : Type} [DecidableEq α] [DecidableEq β] : DecidableEq (Except α β) := fun x y =>
  match x, y with
  | .error a, .error b =>
    if h : a = b then .isTrue (by rw [h]) else .isFalse (by simp [h])
  | .ok a, .ok b =>
    if h : a = b then .isTrue (by rw [h]) else .isFalse (by simp [h])
  | .error _, .ok _ => .isFalse (by simp)
  | .ok _, .error _ => .isFalse (by simp)

/-- Python `str.startswith(p)`, i.e. the byte-wise prefix test. -/
def pyStartswith (p s : String) : Bool :=
  p.data.isPrefixOf s.data

/-- Python `str.strip()` on the character list of a string. -/
def pyStrip (s : String) : List Char :=
  ((s.data.dropWhile Char.isWhitespace).reverse.dropWhile Char.isWhitespace).reverse

/-- Python `int(s)` for decimal literals: strips surrounding whitespace,
accepts an optional sign followed by digits, and raises `ValueError`
(here: `none`) otherwise.  Underscore digit grouping is not modelled;
no claim exercises it. -/
def pyInt (s : String) : Option Int :=
  match pyStrip s with
  | [] => none
  | c :: cs =>
    let signAndDigits : Bool × List Char :=
      if c = '-' then (true, cs)
      else if c = '+' then (false, cs)
      else (false, c :: cs)
    let neg := signAndDigits.1
    let ds := signAndDigits.2
    if ds.isEmpty then none
    else if ds.all Char.isDigit then
      let n : Nat := ds.foldl (fun acc d => acc * 10 + (d.toNat - '0'.toNat)) 0
      some (if neg then -(n : Int) else (n : Int))
    else none

/-- Lexicographic comparison of character lists by code point; this is
exactly how Python compares strings. -/
def charListLt : List Char → List Char → Bool
  | [], [] => false
  | [], _ :: _ => true
  | _ :: _, [] => false
  | a :: as, b :: bs =>
    if a.val < b.val then true
    else if b.val < a.val then false
    else charListLt as bs

/-- Python `a < b` on strings. -/
def strLt (a b : String) : Bool :=
  charListLt a.data b.data

/-- Python tuple comparison `x <= y` on pairs of strings, as used by
`list.sort()` on `(kind, content)` marker pairs. -/
def pairLe (x y : String × String) : Bool :=
  strLt x.1 y.1 || (x.1 = y.1 && (strLt x.2 y.2 || x.2 = y.2))

/-- Insert one pair into an already sorted list of pairs. -/
def insortPair (x : String × String) : List (String × String) → List (String × String)
  | [] => [x]
  | y :: ys => if pairLe x y then x :: y :: ys else y :: insortPair x ys

/-- `stat_list.sort()` from `task_get_status`: ascending sort of the
`(kind, content)` pairs under Python tuple comparison. -/
def sortPairs (l : List (String × String)) : List (String × String) :=
  l.foldr insortPair []

/-- The `code` component of a task status record: an `int` for RUNNING
(pid) and SUCCESS/FAIL/UNKNOWN, the raw `wait` marker string for
WAITING. -/
inductive TaskCode where
  | int : Int → TaskCode
  | str : String → TaskCode
deriving DecidableEq

/-- The per-task classification loop of `task_get_status`
(`yo/tasks.py` lines 554-572): sort the `(kind, content)` marker pairs,
then branch on the shape of the sorted list.  In the singleton branch
the content is converted with `int()` before the kind is inspected, so
a non-numeric content raises `ValueError` there. -/
def task_classify (markers : List (String × String)) : Except PyError (String × TaskCode) :=
  match sortPairs markers with
  | [(kind, statstr)] =>
    match pyInt statstr with
    | none => .error .valueError
    | some stat =>
      if kind = "pid" then .ok ("RUNNING", .int stat)
      else if stat = 0 then .ok ("SUCCESS", .int 0)
      else .ok ("FAIL", .int 0)
  | [(k1, _), (k2, c2)] =>
    if k1 = "pid" ∧ k2 = "wait" then .ok ("WAITING", .str c2)
    else .ok ("UNKNOWN", .int 0)
  | _ => .ok ("UNKNOWN", .int 0)

/-- `task_get_status` after the remote output has been parsed into the
`task_to_files` grouping: classify every task in order; any raised
exception aborts the whole poll. -/
def task_get_status :
    List (String × List (String × String)) →
    Except PyError (List (String × (String × TaskCode)))
  | [] => .ok []
  | (tname, markers) :: rest =>
    match task_classify markers with
    | .error e => .error e
    | .ok st =>
      match task_get_status rest with
      | .error e => .error e
      | .ok tl => .ok ((tname, st) :: tl)

/-- Replace every non-overlapping occurrence of the pattern
`p :: ps` left to right, as Python `str.replace` does.  The fuel
argument (instantiated with the length of the scanned list, which
bounds the recursion depth) only keeps the recursion structural. -/
def replaceList (p : Char) (ps rep : List Char) : Nat → List Char → List Char
  | _, [] => []
  | 0, l => l
  | Nat.succ fuel, c :: rest =>
    if (p :: ps).isPrefixOf (c :: rest) then
      rep ++ replaceList p ps rep (fuel - ps.length) (rest.drop ps.length)
    else
      c :: replaceList p ps rep fuel rest

/-- Python `s.replace(pat, rep)` (all occurrences).  The empty-pattern
case is not modelled; the source only replaces directive keywords. -/
def pyReplace (s pat rep : String) : String :=
  match pat.data with
  | [] => s
  | p :: ps => String.mk (replaceList p ps rep.data s.data.length s.data)

/-- Split a character list at every occurrence of the separator, as
Python `s.split(sep)` for a one-character separator does: the result
always has one more part than there are separators. -/
def splitOnChar (sep : Char) : List Char → List (List Char)
  | [] => [[]]
  | c :: r =>
    let rest := splitOnChar sep r
    if c = sep then [] :: rest
    else
      match rest with
      | [] => [[c]]
      | t :: ts => (c :: t) :: ts

/-- Python `script.split("\n")`. -/
def pySplitNL (s : String) : List String :=
  (splitOnChar '\n' s.data).map String.mk

/-- Python `"\n".join(lines)`. -/
def pyJoinNL : List String → String
  | [] => ""
  | [x] => x
  | x :: y :: xs => x ++ "\n" ++ pyJoinNL (y :: xs)

/-- Python `s.split(None, maxsplit=1)`: skip leading whitespace, cut
off the first whitespace-delimited token, then skip the separator run;
the remainder (if nonempty) is returned verbatim as the second
element. -/
def pySplit1 (s : String) : List String :=
  match s.data.dropWhile Char.isWhitespace with
  | [] => []
  | c :: cs =>
    let tok := (c :: cs).takeWhile (fun ch => ¬ ch.isWhitespace)
    let rest := ((c :: cs).dropWhile (fun ch => ¬ ch.isWhitespace)).dropWhile Char.isWhitespace
    if rest.isEmpty then [String.mk tok] else [String.mk tok, String.mk rest]

/-- Quoting state of the `shlex` scanner: outside quotes, inside
single quotes, inside double quotes, after a backslash outside quotes,
after a backslash inside double quotes. -/
inductive ShMode where
  | plain
  | squote
  | dquote
  | escPlain
  | escDquote
deriving DecidableEq

/-- One-character-at-a-time POSIX `shlex` scanner.  `acc` is the token
under construction (`none` when between tokens).  Ending the input in
a quoted section or after a backslash is the `ValueError` that
`shlex.split` raises for unbalanced input. -/
def shlexRun : List Char → ShMode → Option (List Char) → Option (List String)
  | [], .plain, none => some []
  | [], .plain, some tok => some [String.mk tok]
  | [], _, _ => none
  | c :: r, .plain, acc =>
    if c.isWhitespace then
      match acc with
      | none => shlexRun r .plain none
      | some tok => (shlexRun r .plain none).map (fun ws => String.mk tok :: ws)
    else if c = '\'' then shlexRun r .squote (some (acc.getD []))
    else if c = '"' then shlexRun r .dquote (some (acc.getD []))
    else if c = '\\' then shlexRun r .escPlain (some (acc.getD []))
    else shlexRun r .plain (some (acc.getD [] ++ [c]))
  | c :: r, .squote, acc =>
    if c = '\'' then shlexRun r .plain acc
    else shlexRun r .squote (some (acc.getD [] ++ [c]))
  | c :: r, .dquote, acc =>
    if c = '"' then shlexRun r .plain acc
    else if c = '\\' then shlexRun r .escDquote acc
    else shlexRun r .dquote (some (acc.getD [] ++ [c]))
  | c :: r, .escPlain, acc => shlexRun r .plain (some (acc.getD [] ++ [c]))
  | c :: r, .escDquote, acc =>
    if c = '"' ∨ c = '\\' then shlexRun r .dquote (some (acc.getD [] ++ [c]))
    else shlexRun r .dquote (some (acc.getD [] ++ ['\\', c]))

/-- Python `shlex.split(s)` in POSIX mode; `none` models the
`ValueError` raised on unbalanced quoting. -/
def shlexSplit (s : String) : Option (List String) :=
  shlexRun s.data .plain none

/-- The `YoTask` dataclass (`yo/tasks.py` lines 163-180).  An
`include_files` entry is `(glob pattern, destination, optional)`. -/
structure YoTaskL where
  name : String
  path : String
  script : String
  dependencies : List String
  conflicts : List String
  prereq_for : List String
  include_files : List (String × String × Bool)
  sendfiles : List String
deriving DecidableEq

/-- `os.path.expanduser` for the `~` and `~/...` forms; the `~user`
form (a lookup in the account database) is not modelled and is left
unchanged, which also matches the real behavior when the named user
does not exist. -/
def expanduser (home : String) (p : String) : String :=
  if p = "~" then home
  else if pyStartswith "~/" p then home ++ String.mk (p.data.drop 1)
  else p

/-- Accumulator of the directive-scanning loop of
`YoTask.create_from_string`: the five metadata lists plus the
transformed script lines collected so far. -/
structure ParseAcc where
  dependencies : List String
  conflicts : List String
  prereq_for : List String
  include_files : List (String × String × Bool)
  sendfiles : List String
  outLines : List String
deriving DecidableEq

/-- Initial accumulator: all lists empty. -/
def ParseAcc.init : ParseAcc :=
  ⟨[], [], [], [], [], []⟩

/-- One iteration of the directive loop of `YoTask.create_from_string`
(`yo/tasks.py` lines 193-240).  The branch chain, the use of the
stripped line for matching and rewriting, and which branches do or do
not write back `lines[i]` all mirror the source: only
`MAYBE_DEPENDS_ON`, `INCLUDE_FILE`, `MAYBE_INCLUDE_FILE` and
`SENDFILE` replace the stored line; the other directives leave the raw
line in place.  `line.split(None, maxsplit=1)[1]` on a line with a
single token raises `IndexError`. -/
def processLine (allTasks : List String) (home : String) (acc : ParseAcc)
    (rawLine : String) : Except PyError ParseAcc :=
  let line := String.mk (pyStrip rawLine)
  if pyStartswith "DEPENDS_ON" line then
    match (pySplit1 line).get? 1 with
    | none => .error .indexError
    | some arg =>
      .ok { acc with dependencies := acc.dependencies ++ [arg],
                     outLines := acc.outLines ++ [rawLine] }
  else if pyStartswith "CONFLICTS_WITH" line then
    match (pySplit1 line).get? 1 with
    | none => .error .indexError
    | some arg =>
      .ok { acc with conflicts := acc.conflicts ++ [arg],
                     outLines := acc.outLines ++ [rawLine] }
  else if pyStartswith "MAYBE_DEPENDS_ON" line then
    match (pySplit1 line).get? 1 with
    | none => .error .indexError
    | some task =>
      if allTasks.contains task then
        .ok { acc with dependencies := acc.dependencies ++ [task],
                       outLines := acc.outLines
                         ++ [pyReplace line "MAYBE_DEPENDS_ON" "DEPENDS_ON"] }
      else
        .ok { acc with outLines := acc.outLines
                         ++ [pyReplace line "MAYBE_DEPENDS_ON" "# MAYBE_DEPENDS_ON"] }
  else if pyStartswith "PREREQ_FOR" line then
    match (pySplit1 line).get? 1 with
    | none => .error .indexError
    | some arg =>
      .ok { acc with prereq_for := acc.prereq_for ++ [arg],
                     outLines := acc.outLines ++ [rawLine] }
  else if pyStartswith "INCLUDE_FILE" line then
    match shlexSplit line with
    | none => .error .valueError
    | some args =>
      match args with
      | [_, a1, a2] =>
        .ok { acc with include_files := acc.include_files ++ [(a1, a2, false)],
                       outLines := acc.outLines ++ ["# " ++ line] }
      | [_, a1] =>
        .ok { acc with include_files := acc.include_files ++ [(a1, a1, false)],
                       outLines := acc.outLines ++ ["# " ++ line] }
      | _ =>
        .error (.yoExc ("INCLUDE_FILE expects 1-2 args, got "
          ++ toString (args.length - 1) ++ "\n" ++ line))
  else if pyStartswith "MAYBE_INCLUDE_FILE" line then
    match shlexSplit line with
    | none => .error .valueError
    | some args =>
      match args with
      | [_, a1, a2] =>
        .ok { acc with include_files := acc.include_files ++ [(a1, a2, true)],
                       outLines := acc.outLines ++ ["# " ++ line] }
      | [_, a1] =>
        .ok { acc with include_files := acc.include_files ++ [(a1, a1, true)],
                       outLines := acc.outLines ++ ["# " ++ line] }
      | _ =>
        .error (.yoExc ("MAYBE_INCLUDE_FILE expects 1-2 args, got "
          ++ toString (args.length - 1) ++ "\n" ++ line))
  else if pyStartswith "SENDFILE" line then
    match shlexSplit line with
    | none => .error .valueError
    | some args =>
      match args with
      | [_, a1] =>
        .ok { acc with sendfiles := acc.sendfiles ++ [expanduser home a1],
                       outLines := acc.outLines ++ ["# " ++ line] }
      | _ =>
        .error (.yoExc ("SENDFILE expects 1 arg, got "
          ++ toString (args.length - 1) ++ "\n" ++ line))
  else
    .ok { acc with outLines := acc.outLines ++ [rawLine] }

/-- The directive loop over all script lines, threading the
accumulator; a raised exception aborts the parse. -/
def processLines (allTasks : List String) (home : String) :
    ParseAcc → List String → Except PyError ParseAcc
  | acc, [] => .ok acc
  | acc, l :: rest =>
    match processLine allTasks home acc l with
    | .error e => .error e
    | .ok acc2 => processLines allTasks home acc2 rest

/-- `YoTask.create_from_string` (`yo/tasks.py` lines 182-250):
split the script on newlines, run the directive loop, and rebuild the
task with the transformed script.  `allTasks` stands for the
`list_tasks()` catalog and `home` for the home directory used by
`os.path.expanduser`. -/
def create_from_string (allTasks : List String) (home : String)
    (name script path : String) : Except PyError YoTaskL :=
  match processLines allTasks home ParseAcc.init (pySplitNL script) with
  | .error e => .error e
  | .ok acc =>
    .ok { name := name, path := path,
          script := pyJoinNL acc.outLines,
          dependencies := acc.dependencies,
          conflicts := acc.conflicts,
          prereq_for := acc.prereq_for,
          include_files := acc.include_files,
          sendfiles := acc.sendfiles }

/-- Python `s.lstrip("/")` on a character list: drop every leading
slash. -/
def stripAllSlash (cl : List Char) : String :=
  String.mk (cl.dropWhile (fun c => c = '/'))

/-- `standardize_globs` (`yo/tasks.py` lines 76-93): expand `~` in each
pattern, require the expanded pattern to be absolute, then partition by
destination prefix: `~/...` goes to the user list with the prefix and
any further leading slashes stripped, `/...` goes to the system list
with leading slashes stripped, anything else raises. -/
def standardize_globs (home : String) :
    List (String × String × Bool) →
    Except PyError (List (String × String × Bool) × List (String × String × Bool))
  | [] => .ok ([], [])
  | (pattern, dest, optional) :: rest =>
    let pattern := expanduser home pattern
    if ¬ pyStartswith "/" pattern then
      .error (.yoExc ("Only absolute or user-relative paths are allowed: " ++ pattern))
    else if pyStartswith "~/" dest then
      match standardize_globs home rest with
      | .error e => .error e
      | .ok (user, system) =>
        .ok ((pattern, stripAllSlash (dest.data.drop 2), optional) :: user, system)
    else if pyStartswith "/" dest then
      match standardize_globs home rest with
      | .error e => .error e
      | .ok (user, system) =>
        .ok (user, (pattern, stripAllSlash dest.data, optional) :: system)
    else
      .error (.yoExc ("Only absolute or user-relative paths are allowed: " ++ dest))

/-- Spec-side test for an entry that `standardize_globs` rejects: a
pattern that is not absolute after tilde expansion, or a destination
that is neither home-relative nor absolute. -/
def globBad (home : String) (e : String × String × Bool) : Bool :=
  !(pyStartswith "/" (expanduser home e.1))
  || (!(pyStartswith "~/" e.2.1) && !(pyStartswith "/" e.2.1))

/-- Spec-side description of the user partition: the entries with a
home-relative destination, pattern expanded and destination stripped
down to a root-relative path. -/
def specUserGlobs (home : String) (l : List (String × String × Bool)) :
    List (String × String × Bool) :=
  (l.filter (fun e => pyStartswith "~/" e.2.1)).map
    (fun e => (expanduser home e.1, stripAllSlash (e.2.1.data.drop 2), e.2.2))

/-- Spec-side description of the system partition: the remaining
entries, pattern expanded and the leading slashes of the destination
stripped. -/
def specSystemGlobs (home : String) (l : List (String × String × Bool)) :
    List (String × String × Bool) :=
  (l.filter (fun e => !(pyStartswith "~/" e.2.1))).map
    (fun e => (expanduser home e.1, stripAllSlash e.2.1.data, e.2.2))

/-- The seven directive keywords recognized by the parser. -/
def directiveKeywords : List String :=
  ["DEPENDS_ON", "CONFLICTS_WITH", "MAYBE_DEPENDS_ON", "PREREQ_FOR",
   "INCLUDE_FILE", "MAYBE_INCLUDE_FILE", "SENDFILE"]

/-- Spec-side description of how one script line is rewritten by the
parser, used to state the amended form of the line-commenting claim:
`DEPENDS_ON`, `CONFLICTS_WITH` and `PREREQ_FOR` lines are kept
verbatim; a `MAYBE_DEPENDS_ON` line becomes its stripped form with the
keyword rewritten to `DEPENDS_ON` (target in the catalog) or
`# MAYBE_DEPENDS_ON` (target unknown); `INCLUDE_FILE`,
`MAYBE_INCLUDE_FILE` and `SENDFILE` lines become `# ` plus the
stripped line; every other line is kept byte-identical. -/
def lineTransform (allTasks : List String) (rawLine : String) : String :=
  let line := String.mk (pyStrip rawLine)
  if pyStartswith "DEPENDS_ON" line then rawLine
  else if pyStartswith "CONFLICTS_WITH" line then rawLine
  else if pyStartswith "MAYBE_DEPENDS_ON" line then
    match (pySplit1 line).get? 1 with
    | none => rawLine
    | some task =>
      if allTasks.contains task then pyReplace line "MAYBE_DEPENDS_ON" "DEPENDS_ON"
      else pyReplace line "MAYBE_DEPENDS_ON" "# MAYBE_DEPENDS_ON"
  else if pyStartswith "PREREQ_FOR" line then rawLine
  else if pyStartswith "INCLUDE_FILE" line then "# " ++ line
  else if pyStartswith "MAYBE_INCLUDE_FILE" line then "# " ++ line
  else if pyStartswith "SENDFILE" line then "# " ++ line
  else rawLine

/-- One resolved source of `build_tarball`: its own `lstat` mtime,
whether it is a directory, and (for directories) the mtimes of every
path that `os.walk` reaches beneath it.  The resolution loop of
`build_tarball` (`yo/tasks.py` lines 105-129) turns an entry list with
all sources resolvable into such a list of sources; the incremental
claims quantify over the resolved sources, so the filesystem behind
them is abstracted to these stat numbers. -/
structure SrcInfo where
  mtime : Int
  isDir : Bool
  innerMtimes : List Int
deriving DecidableEq

/-- One iteration of the rebuild-check loop (`yo/tasks.py` lines
135-147): break out (forcing a rebuild) when the lstat mtime of the
source is newer than the archive, or, for a directory, when any walked
path beneath it is newer. -/
def sourceNewer (archMtime : Int) (s : SrcInfo) : Bool :=
  archMtime < s.mtime || (s.isDir && s.innerMtimes.any (fun u => archMtime < u))

/-- The build decision of `build_tarball` (lines 131-149): when the
archive does not exist (`none`) the `tar` subprocess always runs; when
it exists, the for/else loop returns without building unless some
resolved source is newer.  `true` means the subprocess is invoked and
the archive rewritten. -/
def build_tarball_runs (archive : Option Int) (srcs : List SrcInfo) : Bool :=
  match archive with
  | none => true
  | some am => srcs.any (sourceNewer am)

/-- Every mtime of every resolved source is at most `t` — the state
after an archive was written at time `t` and the sources were left
untouched. -/
def allMtimesLE (srcs : List SrcInfo) (t : Int) : Prop :=
  ∀ s ∈ srcs, s.mtime ≤ t ∧ ∀ u ∈ s.innerMtimes, u ≤ t

/-- A polled status mapping, task name to `(status, code)`, as
returned by `task_get_status`; the Python dict is modelled as an
association list in insertion order. -/
def lookupStatus (d : List (String × String × TaskCode)) (name : String) :
    Option (String × TaskCode) :=
  (d.find? (fun pr => pr.1 = name)).map (fun pr => pr.2)

/-- Python `status in ("RUNNING", "WAITING")`. -/
def isActive (status : String) : Bool :=
  status = "RUNNING" || status = "WAITING"

/-- The `any_running` flag accumulated by the display loop of
`task_join` (lines 610-627). -/
def anyRunning (d : List (String × String × TaskCode)) : Bool :=
  d.any (fun pr => isActive pr.2.1)

/-- The generator
`all(status_dict[wt][0] not in ("RUNNING", "WAITING") for wt in wait_tasks)`
with Python evaluation order: names are checked left to right, the
subscript raises `KeyError` on a missing key, and a false predicate
short-circuits the remaining names. -/
def allTerminal (d : List (String × String × TaskCode)) :
    List String → Except PyError Bool
  | [] => .ok true
  | wt :: rest =>
    match lookupStatus d wt with
    | none => .error .keyError
    | some (status, _) =>
      if isActive status then .ok false
      else allTerminal d rest

/-- The `can_terminate` expression of `task_join` (lines 632-638) with
the short-circuit semantics of Python `and`/`or`: an empty
`wait_tasks` requires nothing anywhere to be running; a non-empty one
evaluates the `all` generator over the watched names. -/
def can_terminate (d : List (String × String × TaskCode))
    (wait_tasks : List String) : Except PyError Bool :=
  if wait_tasks.isEmpty then .ok (!anyRunning d)
  else allTerminal d wait_tasks

/-- The polling loop of `task_join` (lines 600-642) driven by a
pre-determined sequence of poll results: take the next poll, evaluate
`can_terminate`, return the final status mapping once it holds,
otherwise sleep and poll again.  `.ok none` means the supplied
sequence ran out with the loop still waiting (the real loop would poll
further); an exception aborts the join. -/
def task_join_run :
    List (List (String × String × TaskCode)) → List String →
    Except PyError (Option (List (String × String × TaskCode)))
  | [], _ => .ok none
  | d :: polls, wait_tasks =>
    match can_terminate d wait_tasks with
    | .error e => .error e
    | .ok true => .ok (some d)
    | .ok false => task_join_run polls wait_tasks

/-- `YoTask.insert_prereq` (`yo/tasks.py` lines 273-275): record the
dependency and prepend a `DEPENDS_ON` line to the script. -/
def insert_prereq (tk : YoTaskL) (other : String) : YoTaskL :=
  { tk with dependencies := tk.dependencies ++ [other],
            script := "DEPENDS_ON " ++ other ++ "\n" ++ tk.script }

/-- Python `nm in self.name_to_task` on the task map, which is a dict
keyed by task name and modelled as a list of tasks with unique names
in insertion order. -/
def containsName (m : List YoTaskL) (nm : String) : Bool :=
  m.any (fun tk => tk.name = nm)

/-- Python `self.name_to_task[nm]` as an optional lookup (`none` is
the raised `KeyError`). -/
def findTask (m : List YoTaskL) (nm : String) : Option YoTaskL :=
  m.find? (fun tk => tk.name = nm)

/-- Mutate the map entry under the given key.  The dict has at most
one entry per name, so rewriting every matching entry of the modelled
list is the same update. -/
def updateTask (m : List YoTaskL) (nm : String) (f : YoTaskL → YoTaskL) : List YoTaskL :=
  m.map (fun tk => if tk.name = nm then f tk else tk)

/-- The `prereq_for` folding for one task (loop body of
`_prepare_prereqs_check_conflicts`, lines 412-414): for every name in
the list that is present in the plan, insert this task as a
prerequisite of it. -/
def foldPrereqs (m : List YoTaskL) (tkname : String) (prereqs : List String) : List YoTaskL :=
  prereqs.foldl
    (fun acc nm =>
      if containsName acc nm then updateTask acc nm (fun t => insert_prereq t tkname)
      else acc) m

/-- One iteration of `_prepare_prereqs_check_conflicts` (lines
411-417): fold this task's prerequisites into the map, then raise on
the first of its conflicts present in the plan. -/
def stepPrereqConflict (m : List YoTaskL) (tk : YoTaskL) : Except PyError (List YoTaskL) :=
  let m2 := foldPrereqs m tk.name tk.prereq_for
  match tk.conflicts.find? (fun nm => containsName m2 nm) with
  | some nm => .error (.yoExc ("Task " ++ tk.name ++ " conflicts with " ++ nm))
  | none => .ok m2

/-- The iteration of `_prepare_prereqs_check_conflicts` over
`name_to_task.values()`.  The loop mutates only `dependencies` and
`script` of map entries, fields it never reads, so reading each
iterated task from the initial list is the same computation. -/
def prereqsConflictsAux : List YoTaskL → List YoTaskL → Except PyError (List YoTaskL)
  | [], m => .ok m
  | tk :: rest, m =>
    match stepPrereqConflict m tk with
    | .error e => .error e
    | .ok m2 => prereqsConflictsAux rest m2

/-- `TaskPlan._prepare_prereqs_check_conflicts` (lines 405-417). -/
def _prepare_prereqs_check_conflicts (p : List YoTaskL) : Except PyError (List YoTaskL) :=
  prereqsConflictsAux p p

/-- `name_to_visit` is a `defaultdict(int)`: a total function with
default `0` (white); `1` is in-progress (gray), `2` is done (black). -/
def updateColor (c : String → Nat) (x : String) (n : Nat) : String → Nat :=
  fun y => if y = x then n else c y

/-- Work item of the recursive `visit` of `_create_execution_order`:
either visit one task, or run the `for dep_name in task.dependencies`
loop over the remaining dependency names. -/
inductive VisitJob where
  | task : YoTaskL → VisitJob
  | deps : List String → VisitJob

/-- The recursive `visit` of `_create_execution_order` (lines
428-440): a black task returns at once, a gray one raises the
circular-dependency error, otherwise the task is grayed, its
dependencies are visited in order (`name_to_task[dep_name]` raising
`KeyError` for an unknown name), and the task is blackened and
appended to the order.  The fuel argument only keeps the recursion
structural: every call consumes one unit, and the callers pass a bound
large enough for the bounded nesting of the Python recursion (each
nested chain grays a fresh name). -/
def visitFuel (m : List YoTaskL) :
    Nat → (String → Nat) → List YoTaskL → VisitJob →
    Except PyError ((String → Nat) × List YoTaskL)
  | 0, _, _, _ => .error (.yoExc "recursion limit")
  | Nat.succ fuel, colors, ord, .task tk =>
    if colors tk.name = 2 then .ok (colors, ord)
    else if colors tk.name = 1 then .error (.yoExc "Tasks express a circular dependency")
    else
      match visitFuel m fuel (updateColor colors tk.name 1) ord (.deps tk.dependencies) with
      | .error e => .error e
      | .ok (c2, ord2) => .ok (updateColor c2 tk.name 2, ord2 ++ [tk])
  | Nat.succ _, colors, ord, .deps [] => .ok (colors, ord)
  | Nat.succ fuel, colors, ord, .deps (dep :: rest) =>
    match findTask m dep with
    | none => .error .keyError
    | some tk =>
      match visitFuel m fuel colors ord (.task tk) with
      | .error e => .error e
      | .ok (c2, ord2) => visitFuel m fuel c2 ord2 (.deps rest)

/-- A fuel amount larger than any call depth `visitFuel` can reach on
the map `m`: one unit per task plus one per dependency edge, with
slack. -/
def fuelBound (m : List YoTaskL) : Nat :=
  m.foldl (fun a tk => a + tk.dependencies.length + 2) 2

/-- The outer loop of `_create_execution_order` (lines 442-443) over
the tasks of the plan, threading the colors and the growing order. -/
def execOrderAux (m : List YoTaskL) :
    (String → Nat) → List YoTaskL → List YoTaskL →
    Except PyError ((String → Nat) × List YoTaskL)
  | colors, ord, [] => .ok (colors, ord)
  | colors, ord, tk :: rest =>
    match visitFuel m (fuelBound m) colors ord (.task tk) with
    | .error e => .error e
    | .ok (c2, ord2) => execOrderAux m c2 ord2 rest

/-- `TaskPlan._create_execution_order` (lines 419-443): depth-first
three-color topological sort of the plan, producing `ordered_tasks`.
-/
def createExecutionOrder (m : List YoTaskL) : Except PyError (List YoTaskL) :=
  match execOrderAux m (fun _ => 0) [] m with
  | .error e => .error e
  | .ok pr => .ok pr.2

/-- `TaskPlan.prepare` (lines 478-481) up to its ordering phase,
returning the folded map and `ordered_tasks`.  The third phase
(`_prepare_files`) only stages files: it runs after these two, can
fail only afterwards, and mutates neither `dependencies` nor
`ordered_tasks`, so the graph claims are decided here. -/
def planPrepare (p : List YoTaskL) : Except PyError (List YoTaskL × List YoTaskL) :=
  match _prepare_prereqs_check_conflicts p with
  | .error e => .error e
  | .ok m =>
    match createExecutionOrder m with
    | .error e => .error e
    | .ok ord => .ok (m, ord)

/-- `TaskPlan.run` launches exactly `ordered_tasks` in order via
`_task_run`, and callers invoke it only after `prepare` returned, so
the launched sequence of a plan is the order on success and nothing on
a prepare error. -/
def planRunLaunches (p : List YoTaskL) : Except PyError (List String) :=
  match planPrepare p with
  | .error e => .error e
  | .ok pr => .ok (pr.2.map YoTaskL.name)

/-- One dependency edge of the folded plan: task `a` is present and
names `b` among its dependencies. -/
def Edge (m : List YoTaskL) (a b : String) : Prop :=
  ∃ tk, findTask m a = some tk ∧ b ∈ tk.dependencies

/-- A nonempty path through dependency edges. -/
inductive DepPath (m : List YoTaskL) : String → String → Prop where
  | single {a b : String} : Edge m a b → DepPath m a b
  | cons {a b c : String} : Edge m a b → DepPath m b c → DepPath m a c

/-- The dependency graph contains a cycle. -/
def HasCycle (m : List YoTaskL) : Prop :=
  ∃ a, DepPath m a a

/-- Invariant of the depth-first sort: black names are exactly the
appended ones, appended tasks come from the map, and every dependency
of an appended task was appended strictly earlier. -/
structure DfsInv (m : List YoTaskL) (colors : String → Nat) (ord : List YoTaskL) : Prop where
  color2_iff : ∀ x, colors x = 2 ↔ x ∈ ord.map YoTaskL.name
  mem_m : ∀ tk ∈ ord, tk ∈ m
  deps_before : ∀ (i : Nat) (tk0 : YoTaskL), ord[i]? = some tk0 →
    ∀ dep ∈ tk0.dependencies, dep ∈ (ord.take i).map YoTaskL.name

/-- After preparation, the task under name `b` exists and counts `a`
among its dependencies. -/
def DepMem (m : List YoTaskL) (b a : String) : Prop :=
  ∃ tkB, findTask m b = some tkB ∧ a ∈ tkB.dependencies

/-- Concrete task forming a two-task dependency cycle with
`cycTaskB`. -/
def cycTaskA : YoTaskL :=
  ⟨"a", "(memory)", "", ["b"], [], [], [], []⟩

/-- Concrete task forming a two-task dependency cycle with
`cycTaskA`. -/
def cycTaskB : YoTaskL :=
  ⟨"b", "(memory)", "", ["a"], [], [], [], []⟩

/-- Concrete task declaring itself a prerequisite of `preTaskQ`. -/
def preTaskP : YoTaskL :=
  ⟨"p1", "(memory)", "s", [], [], ["q1"], [], []⟩

/-- Concrete task targeted by the prerequisite of `preTaskP`. -/
def preTaskQ : YoTaskL :=
  ⟨"q1", "(memory)", "t", [], [], [], [], []⟩

/-- The shape `preTaskQ` takes after prerequisite folding: `p1` is now
a dependency and the script gained a `DEPENDS_ON` line. -/
def preTaskQfolded : YoTaskL :=
  ⟨"q1", "(memory)", "DEPENDS_ON p1\nt", ["p1"], [], [], [], []⟩

theorem length_insortPair (x : String × String) (l : List (String × String)) :
    (insortPair x l).length = l.length + 1 := by
  induction l with
  | nil => rfl
  | cons y ys ih =>
    by_cases h : pairLe x y = true
    · simp [insortPair, h]
    · simp [insortPair, h, ih]

theorem length_sortPairs (l : List (String × String)) :
    (sortPairs l).length = l.length := by
  induction l with
  | nil => rfl
  | cons x xs ih =>
    show (insortPair x (sortPairs xs)).length = xs.length + 1
    rw [length_insortPair, ih]

theorem strLt_pid_wait : strLt "pid" "wait" = true := by decide

theorem strLt_wait_pid : strLt "wait" "pid" = false := by decide

/-- C1: for every task whose polled marker set is exactly one of the
three defined shapes, the per-task classification of `task_get_status`
follows the table of the spec: only a `pid` marker gives
`(RUNNING, pid value)`; only a `status` marker gives `(SUCCESS, 0)`
when its value is `0` and `(FAIL, 0)` otherwise; exactly a `pid`
marker together with a `wait` marker (in either polled order) gives
`(WAITING, content of the wait marker)`. -/
theorem c1_status_classification (p s w : String) (pv sv : Int)
    (hp : pyInt p = some pv) (hs : pyInt s = some sv) :
    task_classify [("pid", p)] = .ok ("RUNNING", .int pv)
    ∧ task_classify [("status", s)] =
        .ok (if sv = 0 then ("SUCCESS", TaskCode.int 0) else ("FAIL", TaskCode.int 0))
    ∧ task_classify [("pid", p), ("wait", w)] = .ok ("WAITING", .str w)
    ∧ task_classify [("wait", w), ("pid", p)] = .ok ("WAITING", .str w) := by
  have hsort1 : sortPairs [("pid", p), ("wait", w)] = [("pid", p), ("wait", w)] := by
    simp [sortPairs, insortPair, pairLe, strLt_pid_wait]
  have hsort2 : sortPairs [("wait", w), ("pid", p)] = [("pid", p), ("wait", w)] := by
    simp [sortPairs, insortPair, pairLe, strLt_wait_pid]
  refine ⟨?_, ?_, ?_, ?_⟩
  · simp [task_classify, sortPairs, insortPair, hp]
  · by_cases h0 : sv = 0 <;> simp [task_classify, sortPairs, insortPair, hs, h0]
  · simp [task_classify, hsort1]
  · simp [task_classify, hsort2]

theorem c1_status_classification_witness :
    task_classify [("pid", "4711")] = .ok ("RUNNING", TaskCode.int 4711)
    ∧ task_classify [("status", "0")] = .ok ("SUCCESS", TaskCode.int 0)
    ∧ task_classify [("status", "7")] = .ok ("FAIL", TaskCode.int 0)
    ∧ task_classify [("wait", "net"), ("pid", "4711")] = .ok ("WAITING", TaskCode.str "net") := by
  have h1 := c1_status_classification "4711" "0" "net" 4711 0 (by decide) (by decide)
  have h2 := c1_status_classification "4711" "7" "net" 4711 7 (by decide) (by decide)
  refine ⟨h1.1, ?_, ?_, h1.2.2.2⟩
  · have := h1.2.1
    simpa using this
  · have := h2.2.1
    simpa using this

/-- C2 counterexample: a task whose marker set is a lone `wait` marker
(a combination other than the three defined shapes) is not classified
`(UNKNOWN, 0)`; instead the singleton branch applies `int()` to the
marker content and the poll raises `ValueError`. -/
theorem c2_lone_wait_counterexample :
    task_classify [("wait", "othertask")] = .error PyError.valueError
    ∧ task_classify [("wait", "othertask")] ≠ .ok ("UNKNOWN", TaskCode.int 0)
    ∧ task_get_status [("t1", [("wait", "othertask")])] = .error PyError.valueError := by
  refine ⟨by decide, by decide, by decide⟩

/-- C2 amended: marker sets of two markers whose sorted form is not
`pid` followed by `wait`, and marker sets of three or more markers,
are classified `(UNKNOWN, 0)` without failing.  A single marker other
than `pid`/`status` — a lone `wait` marker — instead falls into the
singleton branch: classification raises `ValueError` when its content
is not an integer, and otherwise reports SUCCESS (content `0`) or FAIL
exactly as a `status` marker would. -/
theorem c2_other_combinations_amended
    (markers : List (String × String)) (k1 c1 k2 c2 cw : String) (v : Int) :
    (sortPairs markers = [(k1, c1), (k2, c2)] → ¬(k1 = "pid" ∧ k2 = "wait") →
      task_classify markers = .ok ("UNKNOWN", TaskCode.int 0))
    ∧ (3 ≤ markers.length → task_classify markers = .ok ("UNKNOWN", TaskCode.int 0))
    ∧ (pyInt cw = none → task_classify [("wait", cw)] = .error PyError.valueError)
    ∧ (pyInt cw = some v →
        task_classify [("wait", cw)] =
          .ok (if v = 0 then ("SUCCESS", TaskCode.int 0) else ("FAIL", TaskCode.int 0))) := by
  refine ⟨?_, ?_, ?_, ?_⟩
  · intro hsort hnot
    simp [task_classify, hsort, hnot]
  · intro hlen
    have hlen2 : 3 ≤ (sortPairs markers).length := by rw [length_sortPairs]; exact hlen
    match hsort : sortPairs markers with
    | [] => rw [hsort] at hlen2; simp at hlen2
    | [x] => rw [hsort] at hlen2; simp at hlen2
    | [x, y] => rw [hsort] at hlen2; simp at hlen2
    | x :: y :: z :: rest => simp [task_classify, hsort]
  · intro hnone
    simp [task_classify, sortPairs, insortPair, hnone]
  · intro hv
    by_cases h0 : v = 0 <;> simp [task_classify, sortPairs, insortPair, hv, h0]

theorem c2_other_combinations_amended_witness :
    task_classify [("pid", "31"), ("status", "0")] = .ok ("UNKNOWN", TaskCode.int 0)
    ∧ task_classify [("pid", "31"), ("status", "0"), ("wait", "x")] = .ok ("UNKNOWN", TaskCode.int 0)
    ∧ task_classify [("wait", "3")] = .ok ("FAIL", TaskCode.int 0) := by
  have h1 := c2_other_combinations_amended [("pid", "31"), ("status", "0")]
    "pid" "31" "status" "0" "3" 3
  have h2 := c2_other_combinations_amended [("pid", "31"), ("status", "0"), ("wait", "x")]
    "" "" "" "" "3" 3
  refine ⟨h1.1 (by decide) (by decide), h2.2.1 (by decide), ?_⟩
  have := h1.2.2.2 (by decide)
  simpa using this

theorem pyStartswith_excl (a b s : String) (h : pyStartswith a s = true)
    (hab : a.data.isPrefixOf b.data = false)
    (hba : b.data.isPrefixOf a.data = false) :
    pyStartswith b s = false := by
  by_contra hb
  rw [Bool.not_eq_false] at hb
  unfold pyStartswith at h hb
  rw [List.isPrefixOf_iff_prefix] at h hb
  rcases List.prefix_or_prefix_of_prefix h hb with hpre | hpre
  · rw [← List.isPrefixOf_iff_prefix] at hpre
    rw [hpre] at hab
    cases hab
  · rw [← List.isPrefixOf_iff_prefix] at hpre
    rw [hpre] at hba
    cases hba

theorem processLine_outLines (allTasks : List String) (home : String) (acc : ParseAcc)
    (raw : String) (acc' : ParseAcc)
    (h : processLine allTasks home acc raw = .ok acc') :
    acc'.outLines = acc.outLines ++ [lineTransform allTasks raw] := by
  simp only [processLine] at h
  simp only [lineTransform]
  split_ifs at h ⊢ <;>
    (try split at h) <;>
    (try split at h) <;>
    first
      | exact Except.noConfusion h
      | (cases h; rfl)
      | (cases h; simp_all)

theorem processLines_outLines (allTasks : List String) (home : String) :
    ∀ (lines : List String) (acc acc' : ParseAcc),
    processLines allTasks home acc lines = .ok acc' →
    acc'.outLines = acc.outLines ++ lines.map (lineTransform allTasks) := by
  intro lines
  induction lines with
  | nil =>
    intro acc acc' h
    simp only [processLines] at h
    cases h
    simp
  | cons l rest ih =>
    intro acc acc' h
    simp only [processLines] at h
    cases hl : processLine allTasks home acc l with
    | error e => rw [hl] at h; cases h
    | ok acc2 =>
      rw [hl] at h
      have h2 := ih acc2 acc' h
      rw [h2, processLine_outLines allTasks home acc l acc2 hl]
      simp

/-- C5 counterexample: a `DEPENDS_ON` line — whose stripped form starts
with a recognized directive keyword — is left verbatim in the parsed
script, not replaced by a commented-out version. -/
theorem c5_directive_commenting_counterexample :
    create_from_string [] "/home/u" "t" "DEPENDS_ON x" "(memory)" =
      .ok { name := "t", path := "(memory)", script := "DEPENDS_ON x",
            dependencies := ["x"], conflicts := [], prereq_for := [],
            include_files := [], sendfiles := [] }
    ∧ ("DEPENDS_ON x" : String) ≠ "# DEPENDS_ON x" :=
  ⟨by decide, by decide⟩

/-- C5 amended: on a successful parse the script is rebuilt line by
line as described by `lineTransform`: `INCLUDE_FILE`,
`MAYBE_INCLUDE_FILE` and `SENDFILE` lines are replaced by `# ` plus
the stripped line; a `MAYBE_DEPENDS_ON` line is replaced by its
stripped form with the keyword rewritten (`DEPENDS_ON` when the target
is in the catalog, `# MAYBE_DEPENDS_ON` otherwise); `DEPENDS_ON`,
`CONFLICTS_WITH` and `PREREQ_FOR` directive lines are left unchanged;
and all non-directive lines are left byte-identical. -/
theorem c5_line_commenting_amended (allTasks : List String) (home : String)
    (name script path : String) (tk : YoTaskL) (raw : String) :
    (create_from_string allTasks home name script path = .ok tk →
      tk.script = pyJoinNL ((pySplitNL script).map (lineTransform allTasks)))
    ∧ ((∀ k ∈ directiveKeywords, pyStartswith k (String.mk (pyStrip raw)) = false) →
        lineTransform allTasks raw = raw)
    ∧ (pyStartswith "DEPENDS_ON" (String.mk (pyStrip raw)) = true →
        lineTransform allTasks raw = raw)
    ∧ (pyStartswith "CONFLICTS_WITH" (String.mk (pyStrip raw)) = true →
        lineTransform allTasks raw = raw)
    ∧ (pyStartswith "PREREQ_FOR" (String.mk (pyStrip raw)) = true →
        lineTransform allTasks raw = raw)
    ∧ (pyStartswith "INCLUDE_FILE" (String.mk (pyStrip raw)) = true →
        lineTransform allTasks raw = "# " ++ String.mk (pyStrip raw))
    ∧ (pyStartswith "MAYBE_INCLUDE_FILE" (String.mk (pyStrip raw)) = true →
        lineTransform allTasks raw = "# " ++ String.mk (pyStrip raw))
    ∧ (pyStartswith "SENDFILE" (String.mk (pyStrip raw)) = true →
        lineTransform allTasks raw = "# " ++ String.mk (pyStrip raw)) := by
  refine ⟨?_, ?_, ?_, ?_, ?_, ?_, ?_, ?_⟩
  · intro hok
    unfold create_from_string at hok
    cases hp : processLines allTasks home ParseAcc.init (pySplitNL script) with
    | error e => rw [hp] at hok; cases hok
    | ok acc =>
      rw [hp] at hok
      cases hok
      have h2 := processLines_outLines allTasks home (pySplitNL script) ParseAcc.init acc hp
      simp only [ParseAcc.init, List.nil_append] at h2
      simp [h2]
  · intro hall
    have h1 := hall "DEPENDS_ON" (by simp [directiveKeywords])
    have h2 := hall "CONFLICTS_WITH" (by simp [directiveKeywords])
    have h3 := hall "MAYBE_DEPENDS_ON" (by simp [directiveKeywords])
    have h4 := hall "PREREQ_FOR" (by simp [directiveKeywords])
    have h5 := hall "INCLUDE_FILE" (by simp [directiveKeywords])
    have h6 := hall "MAYBE_INCLUDE_FILE" (by simp [directiveKeywords])
    have h7 := hall "SENDFILE" (by simp [directiveKeywords])
    simp [lineTransform, h1, h2, h3, h4, h5, h6, h7]
  · intro h
    simp [lineTransform, h]
  · intro h
    have e1 := pyStartswith_excl "CONFLICTS_WITH" "DEPENDS_ON"
      (String.mk (pyStrip raw)) h (by decide) (by decide)
    simp [lineTransform, h, e1]
  · intro h
    have e1 := pyStartswith_excl "PREREQ_FOR" "DEPENDS_ON"
      (String.mk (pyStrip raw)) h (by decide) (by decide)
    have e2 := pyStartswith_excl "PREREQ_FOR" "CONFLICTS_WITH"
      (String.mk (pyStrip raw)) h (by decide) (by decide)
    have e3 := pyStartswith_excl "PREREQ_FOR" "MAYBE_DEPENDS_ON"
      (String.mk (pyStrip raw)) h (by decide) (by decide)
    simp [lineTransform, h, e1, e2, e3]
  · intro h
    have e1 := pyStartswith_excl "INCLUDE_FILE" "DEPENDS_ON"
      (String.mk (pyStrip raw)) h (by decide) (by decide)
    have e2 := pyStartswith_excl "INCLUDE_FILE" "CONFLICTS_WITH"
      (String.mk (pyStrip raw)) h (by decide) (by decide)
    have e3 := pyStartswith_excl "INCLUDE_FILE" "MAYBE_DEPENDS_ON"
      (String.mk (pyStrip raw)) h (by decide) (by decide)
    have e4 := pyStartswith_excl "INCLUDE_FILE" "PREREQ_FOR"
      (String.mk (pyStrip raw)) h (by decide) (by decide)
    simp [lineTransform, h, e1, e2, e3, e4]
  · intro h
    have e1 := pyStartswith_excl "MAYBE_INCLUDE_FILE" "DEPENDS_ON"
      (String.mk (pyStrip raw)) h (by decide) (by decide)
    have e2 := pyStartswith_excl "MAYBE_INCLUDE_FILE" "CONFLICTS_WITH"
      (String.mk (pyStrip raw)) h (by decide) (by decide)
    have e3 := pyStartswith_excl "MAYBE_INCLUDE_FILE" "MAYBE_DEPENDS_ON"
      (String.mk (pyStrip raw)) h (by decide) (by decide)
    have e4 := pyStartswith_excl "MAYBE_INCLUDE_FILE" "PREREQ_FOR"
      (String.mk (pyStrip raw)) h (by decide) (by decide)
    have e5 := pyStartswith_excl "MAYBE_INCLUDE_FILE" "INCLUDE_FILE"
      (String.mk (pyStrip raw)) h (by decide) (by decide)
    simp [lineTransform, h, e1, e2, e3, e4, e5]
  · intro h
    have e1 := pyStartswith_excl "SENDFILE" "DEPENDS_ON"
      (String.mk (pyStrip raw)) h (by decide) (by decide)
    have e2 := pyStartswith_excl "SENDFILE" "CONFLICTS_WITH"
      (String.mk (pyStrip raw)) h (by decide) (by decide)
    have e3 := pyStartswith_excl "SENDFILE" "MAYBE_DEPENDS_ON"
      (String.mk (pyStrip raw)) h (by decide) (by decide)
    have e4 := pyStartswith_excl "SENDFILE" "PREREQ_FOR"
      (String.mk (pyStrip raw)) h (by decide) (by decide)
    have e5 := pyStartswith_excl "SENDFILE" "INCLUDE_FILE"
      (String.mk (pyStrip raw)) h (by decide) (by decide)
    have e6 := pyStartswith_excl "SENDFILE" "MAYBE_INCLUDE_FILE"
      (String.mk (pyStrip raw)) h (by decide) (by decide)
    simp [lineTransform, h, e1, e2, e3, e4, e5, e6]

theorem c5_line_commenting_amended_witness :
    pyJoinNL ((pySplitNL "DEPENDS_ON b\nINCLUDE_FILE /a /dst/\necho hi").map
        (lineTransform ["b"]))
      = "DEPENDS_ON b\n# INCLUDE_FILE /a /dst/\necho hi"
    ∧ lineTransform ["b"] "echo hi" = "echo hi" := by
  have h := c5_line_commenting_amended ["b"] "/home/u" "t"
    "DEPENDS_ON b\nINCLUDE_FILE /a /dst/\necho hi" "(memory)"
    { name := "t", path := "(memory)",
      script := "DEPENDS_ON b\n# INCLUDE_FILE /a /dst/\necho hi",
      dependencies := ["b"], conflicts := [], prereq_for := [],
      include_files := [("/a", "/dst/", false)], sendfiles := [] } "echo hi"
  refine ⟨?_, h.2.1 (by decide)⟩
  have h1 := h.1 (by decide)
  exact h1.symm

/-- C8 counterexample: a `DEPENDS_ON` directive with zero arguments —
an arity violation — makes parsing fail with a bare `IndexError` from
the unchecked `line.split(None, maxsplit=1)[1]`, not with the
user-facing error kind, and without any message naming the line. -/
theorem c8_arity_error_counterexample :
    create_from_string [] "/home/u" "t" "DEPENDS_ON" "(memory)" =
      .error PyError.indexError :=
  by decide

/-- C8 amended: arity violations of the `shlex`-tokenized directives
(`INCLUDE_FILE`, `MAYBE_INCLUDE_FILE`, `SENDFILE`) fail with the
user-facing error kind and a message quoting the offending line, and
such a line failure aborts the whole parse loop; but the one-argument
prefix directives (`DEPENDS_ON`, `CONFLICTS_WITH`, `MAYBE_DEPENDS_ON`,
`PREREQ_FOR`) given zero arguments fail with a bare `IndexError`
instead. -/
theorem c8_arity_violations_amended (allTasks : List String) (home : String)
    (acc : ParseAcc) (raw : String) (args : List String) (rest : List String)
    (e : PyError) :
    (pyStartswith "INCLUDE_FILE" (String.mk (pyStrip raw)) = true →
      shlexSplit (String.mk (pyStrip raw)) = some args →
      args.length ≠ 2 → args.length ≠ 3 →
      processLine allTasks home acc raw =
        .error (.yoExc ("INCLUDE_FILE expects 1-2 args, got "
          ++ toString (args.length - 1) ++ "\n" ++ String.mk (pyStrip raw))))
    ∧ (pyStartswith "MAYBE_INCLUDE_FILE" (String.mk (pyStrip raw)) = true →
      shlexSplit (String.mk (pyStrip raw)) = some args →
      args.length ≠ 2 → args.length ≠ 3 →
      processLine allTasks home acc raw =
        .error (.yoExc ("MAYBE_INCLUDE_FILE expects 1-2 args, got "
          ++ toString (args.length - 1) ++ "\n" ++ String.mk (pyStrip raw))))
    ∧ (pyStartswith "SENDFILE" (String.mk (pyStrip raw)) = true →
      shlexSplit (String.mk (pyStrip raw)) = some args →
      args.length ≠ 2 →
      processLine allTasks home acc raw =
        .error (.yoExc ("SENDFILE expects 1 arg, got "
          ++ toString (args.length - 1) ++ "\n" ++ String.mk (pyStrip raw))))
    ∧ (pyStartswith "DEPENDS_ON" (String.mk (pyStrip raw)) = true →
      (pySplit1 (String.mk (pyStrip raw))).get? 1 = none →
      processLine allTasks home acc raw = .error .indexError)
    ∧ (pyStartswith "CONFLICTS_WITH" (String.mk (pyStrip raw)) = true →
      (pySplit1 (String.mk (pyStrip raw))).get? 1 = none →
      processLine allTasks home acc raw = .error .indexError)
    ∧ (pyStartswith "MAYBE_DEPENDS_ON" (String.mk (pyStrip raw)) = true →
      (pySplit1 (String.mk (pyStrip raw))).get? 1 = none →
      processLine allTasks home acc raw = .error .indexError)
    ∧ (pyStartswith "PREREQ_FOR" (String.mk (pyStrip raw)) = true →
      (pySplit1 (String.mk (pyStrip raw))).get? 1 = none →
      processLine allTasks home acc raw = .error .indexError)
    ∧ (processLine allTasks home acc raw = .error e →
      processLines allTasks home acc (raw :: rest) = .error e) := by
  refine ⟨?_, ?_, ?_, ?_, ?_, ?_, ?_, ?_⟩
  · intro h hsh hn2 hn3
    have e1 := pyStartswith_excl "INCLUDE_FILE" "DEPENDS_ON"
      (String.mk (pyStrip raw)) h (by decide) (by decide)
    have e2 := pyStartswith_excl "INCLUDE_FILE" "CONFLICTS_WITH"
      (String.mk (pyStrip raw)) h (by decide) (by decide)
    have e3 := pyStartswith_excl "INCLUDE_FILE" "MAYBE_DEPENDS_ON"
      (String.mk (pyStrip raw)) h (by decide) (by decide)
    have e4 := pyStartswith_excl "INCLUDE_FILE" "PREREQ_FOR"
      (String.mk (pyStrip raw)) h (by decide) (by decide)
    rcases args with _ | ⟨a1, _ | ⟨a2, _ | ⟨a3, _ | ⟨a4, rest2⟩⟩⟩⟩
    · simp [processLine, h, e1, e2, e3, e4, hsh]
    · simp [processLine, h, e1, e2, e3, e4, hsh]
    · simp at hn2
    · simp at hn3
    · simp [processLine, h, e1, e2, e3, e4, hsh]
  · intro h hsh hn2 hn3
    have e1 := pyStartswith_excl "MAYBE_INCLUDE_FILE" "DEPENDS_ON"
      (String.mk (pyStrip raw)) h (by decide) (by decide)
    have e2 := pyStartswith_excl "MAYBE_INCLUDE_FILE" "CONFLICTS_WITH"
      (String.mk (pyStrip raw)) h (by decide) (by decide)
    have e3 := pyStartswith_excl "MAYBE_INCLUDE_FILE" "MAYBE_DEPENDS_ON"
      (String.mk (pyStrip raw)) h (by decide) (by decide)
    have e4 := pyStartswith_excl "MAYBE_INCLUDE_FILE" "PREREQ_FOR"
      (String.mk (pyStrip raw)) h (by decide) (by decide)
    have e5 := pyStartswith_excl "MAYBE_INCLUDE_FILE" "INCLUDE_FILE"
      (String.mk (pyStrip raw)) h (by decide) (by decide)
    rcases args with _ | ⟨a1, _ | ⟨a2, _ | ⟨a3, _ | ⟨a4, rest2⟩⟩⟩⟩
    · simp [processLine, h, e1, e2, e3, e4, e5, hsh]
    · simp [processLine, h, e1, e2, e3, e4, e5, hsh]
    · simp at hn2
    · simp at hn3
    · simp [processLine, h, e1, e2, e3, e4, e5, hsh]
  · intro h hsh hn2
    have e1 := pyStartswith_excl "SENDFILE" "DEPENDS_ON"
      (String.mk (pyStrip raw)) h (by decide) (by decide)
    have e2 := pyStartswith_excl "SENDFILE" "CONFLICTS_WITH"
      (String.mk (pyStrip raw)) h (by decide) (by decide)
    have e3 := pyStartswith_excl "SENDFILE" "MAYBE_DEPENDS_ON"
      (String.mk (pyStrip raw)) h (by decide) (by decide)
    have e4 := pyStartswith_excl "SENDFILE" "PREREQ_FOR"
      (String.mk (pyStrip raw)) h (by decide) (by decide)
    have e5 := pyStartswith_excl "SENDFILE" "INCLUDE_FILE"
      (String.mk (pyStrip raw)) h (by decide) (by decide)
    have e6 := pyStartswith_excl "SENDFILE" "MAYBE_INCLUDE_FILE"
      (String.mk (pyStrip raw)) h (by decide) (by decide)
    rcases args with _ | ⟨a1, _ | ⟨a2, _ | ⟨a3, rest2⟩⟩⟩
    · simp [processLine, h, e1, e2, e3, e4, e5, e6, hsh]
    · simp [processLine, h, e1, e2, e3, e4, e5, e6, hsh]
    · simp at hn2
    · simp [processLine, h, e1, e2, e3, e4, e5, e6, hsh]
  · intro h hsplit
    rw [List.get?_eq_getElem?] at hsplit
    simp [processLine, h, hsplit]
  · intro h hsplit
    rw [List.get?_eq_getElem?] at hsplit
    have e1 := pyStartswith_excl "CONFLICTS_WITH" "DEPENDS_ON"
      (String.mk (pyStrip raw)) h (by decide) (by decide)
    simp [processLine, h, e1, hsplit]
  · intro h hsplit
    rw [List.get?_eq_getElem?] at hsplit
    have e1 := pyStartswith_excl "MAYBE_DEPENDS_ON" "DEPENDS_ON"
      (String.mk (pyStrip raw)) h (by decide) (by decide)
    have e2 := pyStartswith_excl "MAYBE_DEPENDS_ON" "CONFLICTS_WITH"
      (String.mk (pyStrip raw)) h (by decide) (by decide)
    simp [processLine, h, e1, e2, hsplit]
  · intro h hsplit
    rw [List.get?_eq_getElem?] at hsplit
    have e1 := pyStartswith_excl "PREREQ_FOR" "DEPENDS_ON"
      (String.mk (pyStrip raw)) h (by decide) (by decide)
    have e2 := pyStartswith_excl "PREREQ_FOR" "CONFLICTS_WITH"
      (String.mk (pyStrip raw)) h (by decide) (by decide)
    have e3 := pyStartswith_excl "PREREQ_FOR" "MAYBE_DEPENDS_ON"
      (String.mk (pyStrip raw)) h (by decide) (by decide)
    simp [processLine, h, e1, e2, e3, hsplit]
  · intro h
    simp [processLines, h]

theorem c8_arity_violations_amended_witness :
    processLine [] "/home/u" ParseAcc.init "INCLUDE_FILE a b c" =
      .error (.yoExc "INCLUDE_FILE expects 1-2 args, got 3\nINCLUDE_FILE a b c")
    ∧ processLine [] "/home/u" ParseAcc.init "SENDFILE a b" =
      .error (.yoExc "SENDFILE expects 1 arg, got 2\nSENDFILE a b")
    ∧ processLine [] "/home/u" ParseAcc.init "DEPENDS_ON" = .error .indexError
    ∧ processLines [] "/home/u" ParseAcc.init ["DEPENDS_ON", "echo hi"] =
      .error .indexError := by
  have h1 := c8_arity_violations_amended [] "/home/u" ParseAcc.init
    "INCLUDE_FILE a b c" ["INCLUDE_FILE", "a", "b", "c"] [] PyError.indexError
  have h2 := c8_arity_violations_amended [] "/home/u" ParseAcc.init
    "SENDFILE a b" ["SENDFILE", "a", "b"] [] PyError.indexError
  have h3 := c8_arity_violations_amended [] "/home/u" ParseAcc.init
    "DEPENDS_ON" [] ["echo hi"] PyError.indexError
  have d3 := h3.2.2.2.1 (by decide) (by decide)
  refine ⟨?_, ?_, d3, h3.2.2.2.2.2.2.2 d3⟩
  · have := h1.1 (by decide) (by decide) (by decide) (by decide)
    simpa using this
  · have := h2.2.2.1 (by decide) (by decide) (by decide)
    simpa using this

theorem pyStartswith_slash_stripAllSlash (cl : List Char) :
    pyStartswith "/" (stripAllSlash cl) = false := by
  induction cl with
  | nil => rfl
  | cons c cs ih =>
    by_cases hc : c = '/'
    · simpa [stripAllSlash, hc] using ih
    · simp [stripAllSlash, List.dropWhile, hc, pyStartswith, List.isPrefixOf]
      intro hcontra
      exact absurd hcontra.symm hc

/-- C6: `standardize_globs` fails whenever some entry has a
non-absolute expanded pattern or a destination that is neither
home-relative nor absolute; on a list of valid entries it returns
exactly the user partition (home-relative destinations, stripped of
the leading tilde segment) and the system partition (leading slashes
stripped); and every destination it ever returns is relative. -/
theorem c6_standardize_globs (home : String) (l : List (String × String × Bool)) :
    ((∃ e ∈ l, globBad home e = true) →
      ∃ m, standardize_globs home l = .error (.yoExc m))
    ∧ ((∀ e ∈ l, globBad home e = false) →
      standardize_globs home l = .ok (specUserGlobs home l, specSystemGlobs home l))
    ∧ (∀ user system, standardize_globs home l = .ok (user, system) →
      (∀ e ∈ user, pyStartswith "/" e.2.1 = false)
      ∧ (∀ e ∈ system, pyStartswith "/" e.2.1 = false)) := by
  induction l with
  | nil =>
    refine ⟨?_, ?_, ?_⟩
    · rintro ⟨e, he, _⟩
      cases he
    · intro _
      rfl
    · intro user system h
      simp only [standardize_globs] at h
      cases h
      exact ⟨fun e he => absurd he (List.not_mem_nil e),
             fun e he => absurd he (List.not_mem_nil e)⟩
  | cons hd rest ih =>
    obtain ⟨p, d, o⟩ := hd
    refine ⟨?_, ?_, ?_⟩
    · rintro ⟨e, he, hbad⟩
      rcases List.mem_cons.mp he with he | he
      · subst he
        by_cases hpat : pyStartswith "/" (expanduser home p) = true
        · have hdest : pyStartswith "~/" d = false ∧ pyStartswith "/" d = false := by
            simp only [globBad, hpat, Bool.not_true, Bool.false_or,
              Bool.and_eq_true, Bool.not_eq_true'] at hbad
            exact hbad
          exact ⟨"Only absolute or user-relative paths are allowed: " ++ d,
            by simp [standardize_globs, hpat, hdest.1, hdest.2]⟩
        · rw [Bool.not_eq_true] at hpat
          exact ⟨"Only absolute or user-relative paths are allowed: " ++ expanduser home p,
            by simp [standardize_globs, hpat]⟩
      · obtain ⟨m, hm⟩ := ih.1 ⟨e, he, hbad⟩
        by_cases hpat : pyStartswith "/" (expanduser home p) = true
        · by_cases hdu : pyStartswith "~/" d = true
          · exact ⟨m, by simp [standardize_globs, hpat, hdu, hm]⟩
          · rw [Bool.not_eq_true] at hdu
            by_cases hds : pyStartswith "/" d = true
            · exact ⟨m, by simp [standardize_globs, hpat, hdu, hds, hm]⟩
            · rw [Bool.not_eq_true] at hds
              exact ⟨"Only absolute or user-relative paths are allowed: " ++ d,
                by simp [standardize_globs, hpat, hdu, hds]⟩
        · rw [Bool.not_eq_true] at hpat
          exact ⟨"Only absolute or user-relative paths are allowed: " ++ expanduser home p,
            by simp [standardize_globs, hpat]⟩
    · intro hall
      have hh := hall (p, d, o) (List.mem_cons_self _ _)
      have hr := ih.2.1 (fun e he => hall e (List.mem_cons_of_mem _ he))
      by_cases hpat : pyStartswith "/" (expanduser home p) = true
      · by_cases hdu : pyStartswith "~/" d = true
        · simp [standardize_globs, hpat, hdu, hr, specUserGlobs, specSystemGlobs]
        · rw [Bool.not_eq_true] at hdu
          have hds : pyStartswith "/" d = true := by
            simp only [globBad, hpat, Bool.not_true, Bool.false_or, hdu,
              Bool.not_false, Bool.true_and, Bool.not_eq_false] at hh
            simpa using hh
          simp [standardize_globs, hpat, hdu, hds, hr, specUserGlobs, specSystemGlobs]
      · exfalso
        rw [Bool.not_eq_true] at hpat
        simp [globBad, hpat] at hh
    · intro user system h
      by_cases hpat : pyStartswith "/" (expanduser home p) = true
      · by_cases hdu : pyStartswith "~/" d = true
        · cases hrec : standardize_globs home rest with
          | error e2 =>
            simp [standardize_globs, hpat, hdu, hrec] at h
          | ok pr =>
            obtain ⟨u2, s2⟩ := pr
            have ihc := ih.2.2 u2 s2 hrec
            simp [standardize_globs, hpat, hdu, hrec] at h
            obtain ⟨hu, hs⟩ := h
            subst hu
            subst hs
            refine ⟨?_, ihc.2⟩
            intro e he
            rcases List.mem_cons.mp he with he | he
            · subst he
              exact pyStartswith_slash_stripAllSlash _
            · exact ihc.1 e he
        · rw [Bool.not_eq_true] at hdu
          by_cases hds : pyStartswith "/" d = true
          · cases hrec : standardize_globs home rest with
            | error e2 =>
              simp [standardize_globs, hpat, hdu, hds, hrec] at h
            | ok pr =>
              obtain ⟨u2, s2⟩ := pr
              have ihc := ih.2.2 u2 s2 hrec
              simp [standardize_globs, hpat, hdu, hds, hrec] at h
              obtain ⟨hu, hs⟩ := h
              subst hu
              subst hs
              refine ⟨ihc.1, ?_⟩
              intro e he
              rcases List.mem_cons.mp he with he | he
              · subst he
                exact pyStartswith_slash_stripAllSlash _
              · exact ihc.2 e he
          · rw [Bool.not_eq_true] at hds
            simp [standardize_globs, hpat, hdu, hds] at h
      · rw [Bool.not_eq_true] at hpat
        simp [standardize_globs, hpat] at h

theorem c6_standardize_globs_witness :
    standardize_globs "/home/u" [("~/src", "~/dest", false), ("/etc/x", "/sys/y", true)] =
      .ok ([("/home/u/src", "dest", false)], [("/etc/x", "sys/y", true)])
    ∧ pyStartswith "/" "sys/y" = false := by
  have h := (c6_standardize_globs "/home/u"
    [("~/src", "~/dest", false), ("/etc/x", "/sys/y", true)]).2.1 (by decide)
  have heq : standardize_globs "/home/u"
      [("~/src", "~/dest", false), ("/etc/x", "/sys/y", true)] =
      .ok ([("/home/u/src", "dest", false)], [("/etc/x", "sys/y", true)]) := by
    rw [h]
    decide
  refine ⟨heq, ?_⟩
  exact ((c6_standardize_globs "/home/u" _).2.2 _ _ heq).2
    ("/etc/x", "sys/y", true) (by simp)

/-- C7: with the archive absent the `tar` subprocess runs; with the
archive stamped at `t` and no resolved source (or walked directory
content) newer than `t`, a repeated call performs no build; modifying
any resolved source so that some of its mtimes exceed `t` makes the
next call rebuild; and once that rebuild stamps the archive at a time
`t3` at or after every source mtime, a further call skips again — the
touch forces exactly one rebuild. -/
theorem c7_incremental_packaging (t t3 : Int) (srcs srcs2 : List SrcInfo) :
    build_tarball_runs none srcs = true
    ∧ (allMtimesLE srcs t → build_tarball_runs (some t) srcs = false)
    ∧ ((∃ s ∈ srcs2, t < s.mtime ∨ (s.isDir = true ∧ ∃ u ∈ s.innerMtimes, t < u)) →
      build_tarball_runs (some t) srcs2 = true)
    ∧ (allMtimesLE srcs2 t3 → build_tarball_runs (some t3) srcs2 = false) := by
  have hskip : ∀ (t' : Int) (l : List SrcInfo), allMtimesLE l t' →
      build_tarball_runs (some t') l = false := by
    intro t' l hle
    simp only [build_tarball_runs, List.any_eq_false]
    intro s hs
    obtain ⟨h1, h2⟩ := hle s hs
    have hm : decide (t' < s.mtime) = false := by
      simp
      omega
    have hin : (s.innerMtimes.any fun u => decide (t' < u)) = false := by
      simp only [List.any_eq_false]
      intro u hu
      have := h2 u hu
      simp
      omega
    simp [sourceNewer, hm, hin]
  refine ⟨rfl, hskip t srcs, ?_, hskip t3 srcs2⟩
  rintro ⟨s, hs, hnew⟩
  simp only [build_tarball_runs, List.any_eq_true]
  refine ⟨s, hs, ?_⟩
  simp only [sourceNewer, Bool.or_eq_true, Bool.and_eq_true, List.any_eq_true]
  rcases hnew with hnew | ⟨hdir, u, hu, hun⟩
  · left
    simp
    omega
  · right
    exact ⟨hdir, u, hu, by simp; omega⟩

theorem c7_incremental_packaging_witness :
    build_tarball_runs none [⟨5, false, []⟩] = true
    ∧ build_tarball_runs (some 10) [⟨5, false, []⟩, ⟨3, true, [2, 4]⟩] = false
    ∧ build_tarball_runs (some 10) [⟨5, false, []⟩, ⟨3, true, [2, 11]⟩] = true
    ∧ build_tarball_runs (some 20) [⟨5, false, []⟩, ⟨3, true, [2, 11]⟩] = false := by
  have h1 := c7_incremental_packaging 10 20 [⟨5, false, []⟩]
    [⟨5, false, []⟩, ⟨3, true, [2, 4]⟩]
  have h2 := c7_incremental_packaging 10 20 [⟨5, false, []⟩]
    [⟨5, false, []⟩, ⟨3, true, [2, 11]⟩]
  refine ⟨h1.1, h1.2.1 ?_, ?_, h2.2.2.2 ?_⟩
  · intro s hs
    fin_cases hs
    simp
  · refine h2.2.2.1 ⟨⟨3, true, [2, 11]⟩, by simp, Or.inr ⟨rfl, 11, by simp, by omega⟩⟩
  · intro s hs
    fin_cases hs <;> simp

/-- C9: with a single watched task, the join loop returns at the first
poll in which that task reports a status other than RUNNING and
WAITING, returning that poll, regardless of any other entries (such as
unrelated tasks still RUNNING) in the polled mappings. -/
theorem c9_join_termination (w : String)
    (pre polls : List (List (String × String × TaskCode)))
    (d : List (String × String × TaskCode)) (st : String) (c : TaskCode)
    (hpre : ∀ d' ∈ pre, ∃ st' c', lookupStatus d' w = some (st', c') ∧ isActive st' = true)
    (hd : lookupStatus d w = some (st, c))
    (hterm : isActive st = false) :
    task_join_run (pre ++ d :: polls) [w] = .ok (some d) := by
  induction pre with
  | nil =>
    simp [task_join_run, can_terminate, allTerminal, hd, hterm]
  | cons d0 pre ih =>
    obtain ⟨st0, c0, hl, hact⟩ := hpre d0 (List.mem_cons_self _ _)
    have ih2 := ih (fun d' hd' => hpre d' (List.mem_cons_of_mem _ hd'))
    simp [task_join_run, can_terminate, allTerminal, hl, hact, ih2]

theorem c9_join_termination_witness :
    task_join_run
      [[("other", "RUNNING", TaskCode.int 11), ("w", "RUNNING", TaskCode.int 5)],
       [("other", "RUNNING", TaskCode.int 11), ("w", "SUCCESS", TaskCode.int 0)],
       [("other", "RUNNING", TaskCode.int 11)]] ["w"] =
      .ok (some [("other", "RUNNING", TaskCode.int 11), ("w", "SUCCESS", TaskCode.int 0)]) := by
  have h := c9_join_termination "w"
    [[("other", "RUNNING", TaskCode.int 11), ("w", "RUNNING", TaskCode.int 5)]]
    [[("other", "RUNNING", TaskCode.int 11)]]
    [("other", "RUNNING", TaskCode.int 11), ("w", "SUCCESS", TaskCode.int 0)]
    "SUCCESS" (TaskCode.int 0)
    (by
      intro d' hd'
      simp only [List.mem_singleton] at hd'
      subst hd'
      exact ⟨"RUNNING", TaskCode.int 5, by decide, by decide⟩)
    (by decide) (by decide)
  exact h

/-- C10 counterexample: a poll whose mapping lacks an entry for the
second watched name does not make the join fail when the first watched
name is still RUNNING — the `all` generator short-circuits before the
missing lookup, so the loop just keeps polling. -/
theorem c10_absent_watched_counterexample :
    can_terminate [("a", "RUNNING", TaskCode.int 7)] ["a", "b"] = .ok false
    ∧ task_join_run [[("a", "RUNNING", TaskCode.int 7)]] ["a", "b"] = .ok none :=
  ⟨by decide, by decide⟩

/-- C10 amended: when every watched name before the first absent one
reports a terminal status — in particular whenever the first watched
name has no entry at all — the termination check performs the
unguarded `status_dict[wt]` lookup on the absent name and the join
fails with `KeyError` instead of treating the absent task as pending.
-/
theorem c10_absent_watched_amended (d : List (String × String × TaskCode))
    (polls : List (List (String × String × TaskCode)))
    (pre rest2 : List String) (w : String)
    (hw : lookupStatus d w = none)
    (hpre : ∀ x ∈ pre, ∃ st c, lookupStatus d x = some (st, c) ∧ isActive st = false) :
    can_terminate d (pre ++ w :: rest2) = .error .keyError
    ∧ task_join_run (d :: polls) (pre ++ w :: rest2) = .error .keyError := by
  have h1 : allTerminal d (pre ++ w :: rest2) = .error .keyError := by
    induction pre with
    | nil => simp [allTerminal, hw]
    | cons x pre ih =>
      obtain ⟨st, c, hl, hact⟩ := hpre x (List.mem_cons_self _ _)
      have ih2 := ih (fun y hy => hpre y (List.mem_cons_of_mem _ hy))
      simp [allTerminal, hl, hact, ih2]
  have h2 : can_terminate d (pre ++ w :: rest2) = .error .keyError := by
    have : (pre ++ w :: rest2).isEmpty = false := by
      cases pre <;> rfl
    simp [can_terminate, this, h1]
  exact ⟨h2, by simp [task_join_run, h2]⟩

theorem c10_absent_watched_amended_witness :
    can_terminate [("a", "SUCCESS", TaskCode.int 0)] ["a", "b"] = .error .keyError
    ∧ task_join_run [[("a", "SUCCESS", TaskCode.int 0)]] ["a", "b"] = .error .keyError := by
  have h := c10_absent_watched_amended [("a", "SUCCESS", TaskCode.int 0)] []
    ["a"] [] "b" (by decide)
    (by
      intro x hx
      simp only [List.mem_singleton] at hx
      subst hx
      exact ⟨"SUCCESS", TaskCode.int 0, by decide, by decide⟩)
  exact h

theorem insert_prereq_name (tk : YoTaskL) (o : String) :
    (insert_prereq tk o).name = tk.name := rfl

theorem updateTask_names (m : List YoTaskL) (nm : String) (f : YoTaskL → YoTaskL)
    (hf : ∀ tk, (f tk).name = tk.name) :
    (updateTask m nm f).map YoTaskL.name = m.map YoTaskL.name := by
  induction m with
  | nil => rfl
  | cons tk rest ih =>
    simp only [updateTask, List.map_cons] at ih ⊢
    rw [ih]
    by_cases h : tk.name = nm <;> simp [h, hf]

theorem containsName_eq (m : List YoTaskL) (x : String) :
    containsName m x = (m.map YoTaskL.name).any (fun nm => nm = x) := by
  unfold containsName
  induction m with
  | nil => rfl
  | cons tk rest ih => simp_all

theorem containsName_congr (m m' : List YoTaskL)
    (h : m.map YoTaskL.name = m'.map YoTaskL.name) (x : String) :
    containsName m x = containsName m' x := by
  rw [containsName_eq, containsName_eq, h]

theorem foldPrereqs_names (tkname : String) :
    ∀ (l : List String) (m : List YoTaskL),
    (foldPrereqs m tkname l).map YoTaskL.name = m.map YoTaskL.name := by
  intro l
  induction l with
  | nil => intro m; rfl
  | cons nm rest ih =>
    intro m
    show (foldPrereqs (if containsName m nm then
      updateTask m nm (fun t => insert_prereq t tkname) else m) tkname rest).map YoTaskL.name
      = m.map YoTaskL.name
    rw [ih]
    by_cases h : containsName m nm = true
    · simp [h, updateTask_names m nm _ (fun tk => insert_prereq_name tk tkname)]
    · simp [h]

theorem stepPrereqConflict_ok (m m2 : List YoTaskL) (tk : YoTaskL)
    (h : stepPrereqConflict m tk = .ok m2) :
    m2 = foldPrereqs m tk.name tk.prereq_for := by
  unfold stepPrereqConflict at h
  cases hf : tk.conflicts.find? (fun nm => containsName (foldPrereqs m tk.name tk.prereq_for) nm) with
  | none => simp only [hf] at h; cases h; rfl
  | some nm => simp only [hf] at h; cases h

theorem stepPrereqConflict_error_shape (m : List YoTaskL) (tk : YoTaskL) (e : PyError)
    (h : stepPrereqConflict m tk = .error e) : ∃ msg, e = .yoExc msg := by
  unfold stepPrereqConflict at h
  cases hf : tk.conflicts.find? (fun nm => containsName (foldPrereqs m tk.name tk.prereq_for) nm) with
  | none => simp only [hf] at h; cases h
  | some nm =>
    simp only [hf] at h
    cases h
    exact ⟨_, rfl⟩

theorem prereqsConflictsAux_names :
    ∀ (orig : List YoTaskL) (m m' : List YoTaskL),
    prereqsConflictsAux orig m = .ok m' →
    m'.map YoTaskL.name = m.map YoTaskL.name := by
  intro orig
  induction orig with
  | nil =>
    intro m m' h
    simp only [prereqsConflictsAux] at h
    cases h
    rfl
  | cons tk rest ih =>
    intro m m' h
    simp only [prereqsConflictsAux] at h
    cases hs : stepPrereqConflict m tk with
    | error e => rw [hs] at h; cases h
    | ok m2 =>
      rw [hs] at h
      have h2 := ih m2 m' h
      rw [h2, stepPrereqConflict_ok m m2 tk hs, foldPrereqs_names]

theorem prereqs_conflict_error (p : List YoTaskL) :
    ∀ (orig : List YoTaskL) (m : List YoTaskL),
    m.map YoTaskL.name = p.map YoTaskL.name →
    (∃ tk ∈ orig, ∃ nm ∈ tk.conflicts, containsName p nm = true) →
    ∃ msg, prereqsConflictsAux orig m = .error (.yoExc msg) := by
  intro orig
  induction orig with
  | nil =>
    rintro m _ ⟨tk, htk, _⟩
    cases htk
  | cons tk0 rest ih =>
    rintro m hnames ⟨tk, htk, nm, hnm, hpres⟩
    cases hs : stepPrereqConflict m tk0 with
    | error e =>
      obtain ⟨msg, rfl⟩ := stepPrereqConflict_error_shape m tk0 e hs
      exact ⟨msg, by simp [prereqsConflictsAux, hs]⟩
    | ok m2 =>
      have hnames2 : m2.map YoTaskL.name = p.map YoTaskL.name := by
        rw [stepPrereqConflict_ok m m2 tk0 hs, foldPrereqs_names, hnames]
      rcases List.mem_cons.mp htk with rfl | htk2
      · exfalso
        have hfold : containsName (foldPrereqs m tk.name tk.prereq_for) nm = true := by
          rw [containsName_congr _ p _ nm]
          · exact hpres
          · rw [foldPrereqs_names, hnames]
        unfold stepPrereqConflict at hs
        cases hfind : tk.conflicts.find?
            (fun x => containsName (foldPrereqs m tk.name tk.prereq_for) x) with
        | some y => simp only [hfind] at hs; cases hs
        | none =>
          have := List.find?_eq_none.mp hfind nm hnm
          exact this hfold
      · obtain ⟨msg, hmsg⟩ := ih m2 hnames2 ⟨tk, htk2, nm, hnm, hpres⟩
        exact ⟨msg, by simp [prereqsConflictsAux, hs, hmsg]⟩

theorem findTask_mem (m : List YoTaskL) (nm : String) (tk : YoTaskL)
    (h : findTask m nm = some tk) : tk ∈ m :=
  List.mem_of_find?_eq_some h

theorem findTask_name (m : List YoTaskL) (nm : String) (tk : YoTaskL)
    (h : findTask m nm = some tk) : tk.name = nm := by
  have := List.find?_some h
  simpa using this

theorem mem_findTask (m : List YoTaskL) (hnd : (m.map YoTaskL.name).Nodup)
    (tk : YoTaskL) (htk : tk ∈ m) : findTask m tk.name = some tk := by
  induction m with
  | nil => cases htk
  | cons t rest ih =>
    simp only [List.map_cons, List.nodup_cons] at hnd
    rcases List.mem_cons.mp htk with rfl | htk2
    · simp [findTask, List.find?]
    · by_cases hn : t.name = tk.name
      · exfalso
        apply hnd.1
        rw [hn]
        exact List.mem_map_of_mem YoTaskL.name htk2
      · have := ih hnd.2 htk2
        simpa [findTask, List.find?, hn] using this

theorem containsName_iff_findTask (m : List YoTaskL) (nm : String) :
    containsName m nm = true ↔ ∃ tk, findTask m nm = some tk := by
  induction m with
  | nil => simp [containsName, findTask]
  | cons t rest ih =>
    by_cases hn : t.name = nm
    · simp [containsName, findTask, List.find?, hn]
    · simpa [containsName, findTask, List.find?, hn] using ih

theorem findTask_updateTask (m : List YoTaskL) (nm x : String) (f : YoTaskL → YoTaskL)
    (hf : ∀ tk, (f tk).name = tk.name) :
    findTask (updateTask m nm f) x =
      (findTask m x).map (fun tk => if tk.name = nm then f tk else tk) := by
  unfold findTask updateTask
  rw [List.find?_map]
  have hp : ((fun tk : YoTaskL => decide (tk.name = x)) ∘ fun tk => if tk.name = nm then f tk else tk)
      = (fun tk : YoTaskL => decide (tk.name = x)) := by
    funext tk
    by_cases h : tk.name = nm <;> simp [Function.comp, h, hf]
  rw [hp]

theorem depMem_updateTask (m : List YoTaskL) (nm b a o : String)
    (h : DepMem m b a) :
    DepMem (updateTask m nm (fun t => insert_prereq t o)) b a := by
  obtain ⟨tkB, hfind, hmem⟩ := h
  rw [DepMem, findTask_updateTask m nm b _ (fun tk => insert_prereq_name tk o)]
  refine ⟨_, by rw [hfind]; rfl, ?_⟩
  by_cases hn : tkB.name = nm
  · simp only [hn, if_true, ite_true]
    simp [insert_prereq, hmem]
  · simp [hn, hmem]

theorem depMem_foldPrereqs (t b a : String) :
    ∀ (l : List String) (m : List YoTaskL),
    DepMem m b a → DepMem (foldPrereqs m t l) b a := by
  intro l
  induction l with
  | nil => intro m h; exact h
  | cons nm rest ih =>
    intro m h
    show DepMem (foldPrereqs (if containsName m nm then
      updateTask m nm (fun tk => insert_prereq tk t) else m) t rest) b a
    by_cases hc : containsName m nm = true
    · simp only [hc, if_true, ite_true]
      exact ih _ (depMem_updateTask m nm b a t h)
    · simp only [hc]
      simp only [Bool.false_eq_true, if_false, ite_false]
      exact ih m h

theorem depMem_create_foldPrereqs (t b : String) :
    ∀ (l : List String) (m : List YoTaskL),
    b ∈ l → containsName m b = true →
    DepMem (foldPrereqs m t l) b t := by
  intro l
  induction l with
  | nil => intro m h; cases h
  | cons nm rest ih =>
    intro m hmem hc
    show DepMem (foldPrereqs (if containsName m nm then
      updateTask m nm (fun tk => insert_prereq tk t) else m) t rest) b t
    by_cases hb : nm = b
    · subst hb
      simp only [hc, if_true, ite_true]
      apply depMem_foldPrereqs
      obtain ⟨tkB, hfind⟩ := (containsName_iff_findTask m nm).mp hc
      rw [DepMem, findTask_updateTask m nm nm _ (fun tk => insert_prereq_name tk t)]
      have hname := findTask_name m nm tkB hfind
      refine ⟨_, by rw [hfind]; rfl, ?_⟩
      simp [hname, insert_prereq]
    · have hmem2 : b ∈ rest := by
        rcases List.mem_cons.mp hmem with h | h
        · exact absurd h.symm hb
        · exact h
      by_cases hcnm : containsName m nm = true
      · simp only [hcnm, if_true, ite_true]
        apply ih _ hmem2
        rw [containsName_congr _ m _ b]
        · exact hc
        · exact updateTask_names m nm _ (fun tk => insert_prereq_name tk t)
      · simp only [hcnm, Bool.false_eq_true, if_false, ite_false]
        exact ih m hmem2 hc

theorem depMem_aux (b a : String) :
    ∀ (orig : List YoTaskL) (m m' : List YoTaskL),
    prereqsConflictsAux orig m = .ok m' →
    DepMem m b a → DepMem m' b a := by
  intro orig
  induction orig with
  | nil =>
    intro m m' h hd
    simp only [prereqsConflictsAux] at h
    cases h
    exact hd
  | cons tk rest ih =>
    intro m m' h hd
    simp only [prereqsConflictsAux] at h
    cases hs : stepPrereqConflict m tk with
    | error e => rw [hs] at h; cases h
    | ok m2 =>
      rw [hs] at h
      apply ih m2 m' h
      rw [stepPrereqConflict_ok m m2 tk hs]
      exact depMem_foldPrereqs _ b a _ m hd

theorem depMem_from_aux (tkA : YoTaskL) (B : String)
    (hpre : B ∈ tkA.prereq_for) :
    ∀ (orig : List YoTaskL) (m m' : List YoTaskL),
    tkA ∈ orig →
    containsName m B = true →
    prereqsConflictsAux orig m = .ok m' →
    DepMem m' B tkA.name := by
  intro orig
  induction orig with
  | nil =>
    intro m m' h
    cases h
  | cons tk0 rest ih =>
    intro m m' hA hc h
    simp only [prereqsConflictsAux] at h
    cases hs : stepPrereqConflict m tk0 with
    | error e => rw [hs] at h; cases h
    | ok m2 =>
      rw [hs] at h
      by_cases heq : tkA = tk0
      · subst heq
        apply depMem_aux B tkA.name rest m2 m' h
        rw [stepPrereqConflict_ok m m2 tkA hs]
        exact depMem_create_foldPrereqs tkA.name B tkA.prereq_for m hpre hc
      · have hA2 : tkA ∈ rest := by
          rcases List.mem_cons.mp hA with h2 | h2
          · exact absurd h2 heq
          · exact h2
        apply ih m2 m' hA2 ?_ h
        rw [containsName_congr _ m _ B]
        · exact hc
        · rw [stepPrereqConflict_ok m m2 tk0 hs, foldPrereqs_names]

theorem visitFuel_inv (m : List YoTaskL) :
    ∀ (fuel : Nat) (colors : String → Nat) (ord : List YoTaskL) (job : VisitJob)
      (c' : String → Nat) (ord' : List YoTaskL),
    visitFuel m fuel colors ord job = .ok (c', ord') →
    DfsInv m colors ord →
    (∀ tk, job = .task tk → tk ∈ m) →
    DfsInv m c' ord'
    ∧ (∃ ext, ord' = ord ++ ext)
    ∧ (∀ x, colors x = 1 → c' x = 1)
    ∧ (∀ tk, job = .task tk → c' tk.name = 2)
    ∧ (∀ l, job = .deps l → ∀ dep ∈ l, c' dep = 2) := by
  intro fuel
  induction fuel with
  | zero =>
    intro colors ord job c' ord' h _ _
    simp [visitFuel] at h
  | succ fuel ih =>
    intro colors ord job c' ord' h hinv hjob
    cases job with
    | task tk =>
      have htk : tk ∈ m := hjob tk rfl
      simp only [visitFuel] at h
      by_cases h2 : colors tk.name = 2
      · rw [if_pos h2] at h
        cases h
        refine ⟨hinv, ⟨[], by simp⟩, fun x hx => hx, ?_, ?_⟩
        · intro tk' h'
          cases h'
          exact h2
        · intro l hl
          cases hl
      · rw [if_neg h2] at h
        by_cases h1 : colors tk.name = 1
        · rw [if_pos h1] at h
          cases h
        · rw [if_neg h1] at h
          cases hrec : visitFuel m fuel (updateColor colors tk.name 1) ord
              (.deps tk.dependencies) with
          | error e => rw [hrec] at h; cases h
          | ok pr =>
            obtain ⟨c2, ord2⟩ := pr
            rw [hrec] at h
            cases h
            have hinv1 : DfsInv m (updateColor colors tk.name 1) ord := by
              refine ⟨?_, hinv.mem_m, hinv.deps_before⟩
              intro x
              by_cases hx : x = tk.name
              · subst hx
                simp only [updateColor, if_pos rfl]
                constructor
                · intro hcontra
                  cases hcontra
                · intro hmem
                  exact absurd ((hinv.color2_iff tk.name).mpr hmem) h2
              · simp only [updateColor, if_neg hx]
                exact hinv.color2_iff x
            have IH := ih (updateColor colors tk.name 1) ord (.deps tk.dependencies)
              c2 ord2 hrec hinv1 (by intro tk' h'; cases h')
            obtain ⟨hinv2, ⟨ext2, hext2⟩, hgray2, _, hdeps2⟩ := IH
            have hdepsAll : ∀ dep ∈ tk.dependencies, c2 dep = 2 :=
              hdeps2 tk.dependencies rfl
            have hgraytk : c2 tk.name = 1 :=
              hgray2 tk.name (by simp [updateColor])
            have htkNotIn : tk.name ∉ ord2.map YoTaskL.name := by
              intro hmem
              have := (hinv2.color2_iff tk.name).mpr hmem
              rw [this] at hgraytk
              cases hgraytk
            refine ⟨⟨?_, ?_, ?_⟩, ⟨ext2 ++ [tk], by simp [hext2]⟩, ?_, ?_, ?_⟩
            · intro x
              by_cases hx : x = tk.name
              · subst hx
                simp [updateColor]
              · simp only [updateColor, if_neg hx]
                rw [hinv2.color2_iff x]
                simp [List.map_append, hx]
            · intro tk0 h0
              rcases List.mem_append.mp h0 with h0 | h0
              · exact hinv2.mem_m tk0 h0
              · simp only [List.mem_singleton] at h0
                subst h0
                exact htk
            · intro i tk0 hget dep hdep
              rcases lt_trichotomy i ord2.length with hi | hi | hi
              · rw [List.getElem?_append_left hi] at hget
                rw [List.take_append_of_le_length (le_of_lt hi)]
                exact hinv2.deps_before i tk0 hget dep hdep
              · subst hi
                rw [List.getElem?_concat_length] at hget
                cases hget
                rw [List.take_left]
                exact (hinv2.color2_iff dep).mp (hdepsAll dep hdep)
              · exfalso
                have hnone : (ord2 ++ [tk])[i]? = none := by
                  apply List.getElem?_eq_none
                  simp
                  omega
                rw [hnone] at hget
                cases hget
            · intro x hx
              have hxne : x ≠ tk.name := fun he => by rw [he] at hx; exact h1 hx
              have hx1 : updateColor colors tk.name 1 x = 1 := by
                simp only [updateColor, if_neg hxne]
                exact hx
              have := hgray2 x hx1
              simp only [updateColor, if_neg hxne]
              exact this
            · intro tk' h'
              cases h'
              simp [updateColor]
            · intro l hl
              cases hl
    | deps l =>
      cases l with
      | nil =>
        simp only [visitFuel] at h
        cases h
        refine ⟨hinv, ⟨[], by simp⟩, fun x hx => hx,
          fun tk' h' => VisitJob.noConfusion h', ?_⟩
        intro l' hl'
        cases hl'
        intro dep hd
        cases hd
      | cons dep rest =>
        simp only [visitFuel] at h
        cases hft : findTask m dep with
        | none =>
          simp only [hft] at h
          exact Except.noConfusion h
        | some tk =>
          simp only [hft] at h
          cases hrec : visitFuel m fuel colors ord (.task tk) with
          | error e =>
            simp only [hrec] at h
            exact Except.noConfusion h
          | ok pr =>
            obtain ⟨c2, ord2⟩ := pr
            simp only [hrec] at h
            have htk : tk ∈ m := findTask_mem m dep tk hft
            have IH1 := ih colors ord (.task tk) c2 ord2 hrec hinv
              (by intro tk' h'; cases h'; exact htk)
            obtain ⟨hinv2, ⟨ext2, hext2⟩, hgray2, htask2, _⟩ := IH1
            have IH2 := ih c2 ord2 (.deps rest) c' ord' h hinv2
              (by intro tk' h'; cases h')
            obtain ⟨hinv3, ⟨ext3, hext3⟩, hgray3, _, hdeps3⟩ := IH2
            refine ⟨hinv3, ⟨ext2 ++ ext3, by rw [hext3, hext2, List.append_assoc]⟩,
              fun x hx => hgray3 x (hgray2 x hx),
              fun tk' h' => VisitJob.noConfusion h', ?_⟩
            intro l' hl'
            cases hl'
            intro d hd
            rcases List.mem_cons.mp hd with rfl | hd2
            · have hname := findTask_name m d tk hft
              have hd2col : c2 d = 2 := by
                rw [← hname]
                exact htask2 tk rfl
              have hmem2 : d ∈ ord2.map YoTaskL.name := (hinv2.color2_iff d).mp hd2col
              have hmem3 : d ∈ ord'.map YoTaskL.name := by
                rw [hext3, List.map_append]
                exact List.mem_append_left _ hmem2
              exact (hinv3.color2_iff d).mpr hmem3
            · exact hdeps3 rest rfl d hd2

theorem execOrderAux_inv (m : List YoTaskL) :
    ∀ (tks : List YoTaskL) (colors : String → Nat) (ord : List YoTaskL)
      (c' : String → Nat) (ord' : List YoTaskL),
    execOrderAux m colors ord tks = .ok (c', ord') →
    DfsInv m colors ord →
    (∀ tk ∈ tks, tk ∈ m) →
    DfsInv m c' ord' ∧ (∃ ext, ord' = ord ++ ext) ∧ (∀ tk ∈ tks, c' tk.name = 2) := by
  intro tks
  induction tks with
  | nil =>
    intro colors ord c' ord' h hinv _
    simp only [execOrderAux] at h
    cases h
    exact ⟨hinv, ⟨[], by simp⟩, fun tk htk => absurd htk (List.not_mem_nil tk)⟩
  | cons tk rest ih =>
    intro colors ord c' ord' h hinv hmem
    simp only [execOrderAux] at h
    cases hv : visitFuel m (fuelBound m) colors ord (.task tk) with
    | error e =>
      simp only [hv] at h
      exact Except.noConfusion h
    | ok pr =>
      obtain ⟨c2, ord2⟩ := pr
      simp only [hv] at h
      have IH1 := visitFuel_inv m (fuelBound m) colors ord (.task tk) c2 ord2 hv hinv
        (by intro tk' h'; cases h'; exact hmem tk (List.mem_cons_self _ _))
      obtain ⟨hinv2, ⟨ext2, hext2⟩, _, htask2, _⟩ := IH1
      have IH2 := ih c2 ord2 c' ord' h hinv2 (fun t ht => hmem t (List.mem_cons_of_mem _ ht))
      obtain ⟨hinv3, ⟨ext3, hext3⟩, hall3⟩ := IH2
      refine ⟨hinv3, ⟨ext2 ++ ext3, by rw [hext3, hext2, List.append_assoc]⟩, ?_⟩
      intro t ht
      rcases List.mem_cons.mp ht with rfl | ht2
      · have h2 : c2 t.name = 2 := htask2 t rfl
        have hm2 : t.name ∈ ord2.map YoTaskL.name := (hinv2.color2_iff t.name).mp h2
        have hm3 : t.name ∈ ord'.map YoTaskL.name := by
          rw [hext3, List.map_append]
          exact List.mem_append_left _ hm2
        exact (hinv3.color2_iff t.name).mpr hm3
      · exact hall3 t ht2

theorem createExecutionOrder_topo (m ord : List YoTaskL)
    (h : createExecutionOrder m = .ok ord) :
    (∀ tk ∈ m, tk.name ∈ ord.map YoTaskL.name)
    ∧ (∀ (i : Nat) (tk0 : YoTaskL), ord[i]? = some tk0 →
        ∀ dep ∈ tk0.dependencies, dep ∈ (ord.take i).map YoTaskL.name)
    ∧ (∀ tk ∈ ord, tk ∈ m) := by
  unfold createExecutionOrder at h
  cases ha : execOrderAux m (fun _ => 0) [] m with
  | error e =>
    simp only [ha] at h
    exact Except.noConfusion h
  | ok pr =>
    obtain ⟨cF, ordF⟩ := pr
    simp only [ha] at h
    cases h
    have hinit : DfsInv m (fun _ => 0) [] := by
      refine ⟨?_, ?_, ?_⟩
      · intro x
        simp
      · intro tk htk
        cases htk
      · intro i tk0 hget
        simp at hget
    have H := execOrderAux_inv m m (fun _ => 0) [] cF ord ha hinit (fun tk htk => htk)
    obtain ⟨hinv, _, hall⟩ := H
    refine ⟨?_, hinv.deps_before, hinv.mem_m⟩
    intro tk htk
    exact (hinv.color2_iff tk.name).mp (hall tk htk)

theorem edge_before (m ord : List YoTaskL) (hnd : (m.map YoTaskL.name).Nodup)
    (hdeps : ∀ (i : Nat) (tk0 : YoTaskL), ord[i]? = some tk0 →
      ∀ dep ∈ tk0.dependencies, dep ∈ (ord.take i).map YoTaskL.name)
    (hmemord : ∀ tk ∈ ord, tk ∈ m)
    (a b : String) (hedge : Edge m a b) (i : Nat)
    (hi : (ord.map YoTaskL.name)[i]? = some a) :
    ∃ j : Nat, j < i ∧ (ord.map YoTaskL.name)[j]? = some b := by
  obtain ⟨tk, hfind, hb⟩ := hedge
  rw [List.getElem?_map] at hi
  cases hget : ord[i]? with
  | none =>
    rw [hget] at hi
    cases hi
  | some tk0 =>
    rw [hget] at hi
    have hname0 : tk0.name = a := by simpa using hi
    have htk0m : tk0 ∈ m := hmemord tk0 (List.getElem?_mem hget)
    have htkm : tk ∈ m := findTask_mem m a tk hfind
    have heqtk : tk0 = tk :=
      List.inj_on_of_nodup_map hnd htk0m htkm
        (by rw [hname0, findTask_name m a tk hfind])
    have hbefore := hdeps i tk0 hget b (by rw [heqtk]; exact hb)
    rw [List.map_take] at hbefore
    obtain ⟨j, hj⟩ := List.mem_iff_getElem?.mp hbefore
    have hjlen : j < ((ord.map YoTaskL.name).take i).length := by
      by_contra hcon
      push_neg at hcon
      rw [List.getElem?_eq_none hcon] at hj
      cases hj
    have hji : j < i := lt_of_lt_of_le hjlen (by rw [List.length_take]; exact min_le_left _ _)
    rw [List.getElem?_take_of_lt hji] at hj
    exact ⟨j, hji, hj⟩

theorem path_before (m ord : List YoTaskL) (hnd : (m.map YoTaskL.name).Nodup)
    (hdeps : ∀ (i : Nat) (tk0 : YoTaskL), ord[i]? = some tk0 →
      ∀ dep ∈ tk0.dependencies, dep ∈ (ord.take i).map YoTaskL.name)
    (hmemord : ∀ tk ∈ ord, tk ∈ m)
    (a b : String) (hpath : DepPath m a b) :
    ∀ i : Nat, (ord.map YoTaskL.name)[i]? = some a →
    ∃ j : Nat, j < i ∧ (ord.map YoTaskL.name)[j]? = some b := by
  induction hpath with
  | single e =>
    intro i hi
    exact edge_before m ord hnd hdeps hmemord _ _ e i hi
  | cons e _ ih =>
    intro i hi
    obtain ⟨j, hj, hj2⟩ := edge_before m ord hnd hdeps hmemord _ _ e i hi
    obtain ⟨k, hk, hk2⟩ := ih j hj2
    exact ⟨k, lt_trans hk hj, hk2⟩

theorem createExecutionOrder_no_cycle (m ord : List YoTaskL)
    (hnd : (m.map YoTaskL.name).Nodup)
    (h : createExecutionOrder m = .ok ord) : ¬ HasCycle m := by
  rintro ⟨a, hpath⟩
  obtain ⟨hall, hdeps, hmemord⟩ := createExecutionOrder_topo m ord h
  have hEdge : ∃ x, Edge m a x := by
    cases hpath with
    | single e => exact ⟨_, e⟩
    | cons e _ => exact ⟨_, e⟩
  obtain ⟨x, tk, hfind, _⟩ := hEdge
  have htkm := findTask_mem m a tk hfind
  have hmem : a ∈ ord.map YoTaskL.name := by
    rw [← findTask_name m a tk hfind]
    exact hall tk htkm
  obtain ⟨i0, hi0⟩ := List.mem_iff_getElem?.mp hmem
  have H : ∀ i : Nat, (ord.map YoTaskL.name)[i]? = some a → False := by
    intro i
    induction i using Nat.strong_induction_on with
    | _ i ihs =>
      intro hi
      obtain ⟨j, hj, hj2⟩ := path_before m ord hnd hdeps hmemord a a hpath i hi
      exact ihs j hj hj2
  exact H i0 hi0

/-- C3: a plan in which some task names a co-present task among its
conflicts, or whose dependency graph after prerequisite folding
contains a cycle, is rejected by `prepare` with an error, and no task
of the plan is launched — `run`, which launches `ordered_tasks` and is
only reached after `prepare` returns, never receives a launch list.
The `Nodup` hypothesis states that the modelled `name_to_task` list is
a dict keyed by task name. -/
theorem c3_graph_errors (p : List YoTaskL)
    (hnd : (p.map YoTaskL.name).Nodup)
    (hbad : (∃ tk ∈ p, ∃ nm ∈ tk.conflicts, containsName p nm = true)
      ∨ (∀ m, _prepare_prereqs_check_conflicts p = .ok m → HasCycle m)) :
    (∃ e, planPrepare p = .error e) ∧ (∃ e, planRunLaunches p = .error e) := by
  have hprep : ∃ e, planPrepare p = .error e := by
    rcases hbad with hconf | hcyc
    · obtain ⟨msg, hmsg⟩ := prereqs_conflict_error p p p rfl hconf
      exact ⟨.yoExc msg, by simp [planPrepare, _prepare_prereqs_check_conflicts, hmsg]⟩
    · cases hp : _prepare_prereqs_check_conflicts p with
      | error e => exact ⟨e, by simp [planPrepare, hp]⟩
      | ok m =>
        have hcycm := hcyc m hp
        have hndm : (m.map YoTaskL.name).Nodup := by
          rw [prereqsConflictsAux_names p p m hp]
          exact hnd
        cases hord : createExecutionOrder m with
        | error e => exact ⟨e, by simp [planPrepare, hp, hord]⟩
        | ok ord =>
          exact absurd hcycm (createExecutionOrder_no_cycle m ord hndm hord)
  obtain ⟨e, he⟩ := hprep
  exact ⟨⟨e, he⟩, ⟨e, by simp [planRunLaunches, he]⟩⟩

/-- C4: when task A declares B in `prereq_for` and both are in the
plan, a successful `prepare` leaves A's name among the dependencies of
the task stored under B, and A strictly precedes B in
`ordered_tasks`. -/
theorem c4_prereq_folding (p : List YoTaskL) (tkA : YoTaskL) (B : String)
    (m ord : List YoTaskL)
    (hnd : (p.map YoTaskL.name).Nodup)
    (hA : tkA ∈ p) (hpre : B ∈ tkA.prereq_for) (hB : containsName p B = true)
    (hok : planPrepare p = .ok (m, ord)) :
    (∃ tkB, findTask m B = some tkB ∧ tkA.name ∈ tkB.dependencies)
    ∧ (∃ i j : Nat, i < j ∧ (ord.map YoTaskL.name)[i]? = some tkA.name
        ∧ (ord.map YoTaskL.name)[j]? = some B) := by
  unfold planPrepare at hok
  cases hp : _prepare_prereqs_check_conflicts p with
  | error e =>
    simp only [hp] at hok
    exact Except.noConfusion hok
  | ok m2 =>
    simp only [hp] at hok
    cases hord : createExecutionOrder m2 with
    | error e =>
      simp only [hord] at hok
      exact Except.noConfusion hok
    | ok ord2 =>
      simp only [hord] at hok
      cases hok
      have hdm : DepMem m B tkA.name := depMem_from_aux tkA B hpre p p m hA hB hp
      obtain ⟨tkB, hfind, hmemdep⟩ := hdm
      refine ⟨⟨tkB, hfind, hmemdep⟩, ?_⟩
      obtain ⟨hall, hdeps, hmemord⟩ := createExecutionOrder_topo m ord hord
      have hndm : (m.map YoTaskL.name).Nodup := by
        rw [prereqsConflictsAux_names p p m hp]
        exact hnd
      have hBmem : B ∈ ord.map YoTaskL.name := by
        rw [← findTask_name m B tkB hfind]
        exact hall tkB (findTask_mem m B tkB hfind)
      obtain ⟨j, hj⟩ := List.mem_iff_getElem?.mp hBmem
      have hedge : Edge m B tkA.name := ⟨tkB, hfind, hmemdep⟩
      obtain ⟨i, hij, hi⟩ := edge_before m ord hndm hdeps hmemord B tkA.name hedge j hj
      exact ⟨i, j, hij, hi, hj⟩

theorem c3_graph_errors_witness :
    (planPrepare [cycTaskA, cycTaskB]).toOption = none
    ∧ (planRunLaunches [cycTaskA, cycTaskB]).toOption = none := by
  have h := c3_graph_errors [cycTaskA, cycTaskB] (by decide)
    (Or.inr (by
      intro m hm
      have hpc : _prepare_prereqs_check_conflicts [cycTaskA, cycTaskB]
          = .ok [cycTaskA, cycTaskB] := by decide
      rw [hpc] at hm
      cases hm
      exact ⟨"a", DepPath.cons
        (show Edge [cycTaskA, cycTaskB] "a" "b" from ⟨cycTaskA, by decide, by decide⟩)
        (DepPath.single
          (show Edge [cycTaskA, cycTaskB] "b" "a" from ⟨cycTaskB, by decide, by decide⟩))⟩))
  obtain ⟨⟨e1, he1⟩, e2, he2⟩ := h
  constructor
  · rw [he1]
    rfl
  · rw [he2]
    rfl

theorem c4_prereq_folding_witness :
    (∃ tkB, findTask [preTaskP, preTaskQfolded] "q1" = some tkB
      ∧ "p1" ∈ tkB.dependencies)
    ∧ (∃ i j : Nat, i < j
      ∧ ([preTaskP, preTaskQfolded].map YoTaskL.name)[i]? = some "p1"
      ∧ ([preTaskP, preTaskQfolded].map YoTaskL.name)[j]? = some "q1") := by
  have h := c4_prereq_folding [preTaskP, preTaskQ] preTaskP "q1"
    [preTaskP, preTaskQfolded] [preTaskP, preTaskQfolded]
    (by decide) (by decide) (by decide) (by decide) (by decide)
  simpa [preTaskP] using h

end Yo
